import Mathlib

/-!
Verification development for the streaming data-type classifier declared in
src/include/config/CDataSemantics.h (class ml::config::CDataSemantics).

The repository contains only the class declaration: the member function
bodies, the ConfigTypes.h enumerations and the values of the threshold
constants live in files that are not part of the repository.  The header
fixes the state layout (m_Count, m_NumericProportion, m_IntegerProportion,
m_Smallest, m_Largest, m_DistinctValues, m_NonNumericValues,
m_EmpiricalDistributionOverflowed, m_EmpiricalDistribution, m_Override,
m_Type) and the operation signatures (add, computeType, type, and the
helpers categoricalType, realType, integerType, isNumeric, isInteger,
GMMGoodFit).  Every behaviour that the header does not determine is
modelled from the specification, and each such definition carries a doc
comment saying so.

Modelling conventions:
- machine doubles are modelled by rationals; the per-example counters are
  kept as natural numbers and the running proportions are the derived
  fractions, which is what the incremental weighted-average updates of the
  source compute for unit-weight examples;
- the out-of-scope numeric string parser (maths string utilities) is an
  arbitrary function into its declared result type, taken as a parameter;
- the ordinal domain (maths::COrdinal), a tagged union of signed integer,
  unsigned integer and real compared and hashed by numeric value, is
  modelled by the rational numbers into which all three inject;
- the approximate distinct-count sketch (maths::CBjkstUniqueValues) is
  modelled by the exact set of ordinals offered to it, an estimator with
  zero error, which satisfies the bounded-relative-error interface;
- the Gaussian-mixture goodness-of-fit score is a pluggable boolean
  function of the empirical distribution, taken as a parameter.
-/

namespace CDataSemantics

/-- Modelled from the spec: ConfigTypes.h with the config_t enumerations is
not under src/.  The spec names exactly four inferred type categories:
binary categorical, categorical, integer and real valued. -/
inductive EDataType where
  | binary
  | categorical
  | integer
  | real
deriving DecidableEq

/-- Modelled from the spec: the caller-supplied override is an optional
forced type which computeType maps directly to its corresponding data
type, so we mirror the four data type categories. -/
inductive EUserDataType where
  | binary
  | categorical
  | integer
  | real
deriving DecidableEq

/-- Modelled from the spec: the direct map from a user override to the
corresponding data type. -/
def EUserDataType.toDataType : EUserDataType → EDataType
  | .binary => EDataType.binary
  | .categorical => EDataType.categorical
  | .integer => EDataType.integer
  | .real => EDataType.real

/-- Modelled from the spec: the out-of-scope numeric parser returns a
signed integer, an unsigned integer, a real number, or reports that the
text is not numeric.  Machine integer ranges and floating point are
modelled by unbounded integers and rationals. -/
inductive ParseResult where
  | integer (value : ℤ)
  | positiveInteger (value : ℕ)
  | real (value : ℚ)
  | notNumeric
deriving DecidableEq

/-- Modelled from the spec: the canonical ordinal value of a parse result,
none for non-numeric text.  All three numeric representations inject into
the rationals, which gives the cross-representation order and equality the
spec requires of maths::COrdinal. -/
def ParseResult.ordinal : ParseResult → Option ℚ
  | .integer v => some (v : ℚ)
  | .positiveInteger v => some (v : ℚ)
  | .real v => some v
  | .notNumeric => none

/-- Modelled from the spec: whether the winning parse counts the example
toward the integer proportion (both integer representations do, a real
parse does not). -/
def ParseResult.countsAsInteger : ParseResult → Bool
  | .integer _ => true
  | .positiveInteger _ => true
  | .real _ => false
  | .notNumeric => false

/-- Modelled from the spec: the threshold constants are declared in the
header but their values are defined in the missing translation unit; the
spec calls them tunable configuration constants, so the model takes them
as parameters.  Field names follow the source constants, including the
source spelling of INTEGER_PRORORTION_FOR_INTEGER. -/
structure Params where
  NUMERIC_PROPORTION_FOR_METRIC_STRICT : ℚ
  NUMERIC_PROPORTION_FOR_METRIC_WITH_SUSPECTED_MISSING_VALUES : ℚ
  INTEGER_PRORORTION_FOR_INTEGER : ℚ
  MAXIMUM_EMPIRICAL_DISTRIBUTION_SIZE : ℕ

/-- Modelled from the spec: the intended range of the threshold constants,
proportions that a fraction of examples must meet, with the tolerant
numeric threshold below the strict one. -/
def Params.Sensible (P : Params) : Prop :=
  0 < P.NUMERIC_PROPORTION_FOR_METRIC_WITH_SUSPECTED_MISSING_VALUES ∧
  P.NUMERIC_PROPORTION_FOR_METRIC_WITH_SUSPECTED_MISSING_VALUES ≤
    P.NUMERIC_PROPORTION_FOR_METRIC_STRICT ∧
  P.NUMERIC_PROPORTION_FOR_METRIC_STRICT ≤ 1 ∧
  0 < P.INTEGER_PRORORTION_FOR_INTEGER ∧
  P.INTEGER_PRORORTION_FOR_INTEGER ≤ 1

/-- The classifier state, field for field after the private section of the
header.  The running proportions of the source are derived functions of
the integer counters below; the sketch field models the approximate
distinct-count estimator that the header reaches through
maths::CBjkstUniqueValues. -/
structure State where
  m_Type : Option EDataType
  m_Override : Option EUserDataType
  m_Count : ℕ
  numericCount : ℕ
  integerCount : ℕ
  m_Smallest : Option ℚ
  m_Largest : Option ℚ
  m_DistinctValues : List String
  m_NonNumericValues : List String
  m_EmpiricalDistributionOverflowed : Bool
  m_EmpiricalDistribution : List (ℚ × ℕ)
  sketch : Finset ℚ

/-- The freshly constructed classifier: empty statistics, an optional
override, and no computed type yet. -/
def init (override : Option EUserDataType) : State :=
  { m_Type := none
    m_Override := override
    m_Count := 0
    numericCount := 0
    integerCount := 0
    m_Smallest := none
    m_Largest := none
    m_DistinctValues := []
    m_NonNumericValues := []
    m_EmpiricalDistributionOverflowed := false
    m_EmpiricalDistribution := []
    sketch := ∅ }

/-- The keys of the empirical distribution. -/
def keys (d : List (ℚ × ℕ)) : List ℚ :=
  d.map Prod.fst

/-- The occurrence count the empirical distribution records for a value,
zero when the value is not a key. -/
def lookupCount : List (ℚ × ℕ) → ℚ → ℕ
  | [], _ => 0
  | p :: d, v => if p.1 = v then p.2 else lookupCount d v

/-- Increment the count of a key already present in the distribution;
leaves the distribution unchanged when the key is absent. -/
def bump (d : List (ℚ × ℕ)) (v : ℚ) : List (ℚ × ℕ) :=
  d.map (fun p => if p.1 = v then (p.1, p.2 + 1) else p)

/-- Record a literal string in a bounded distinct sample while the sample
has room, as the spec describes for m_DistinctValues and
m_NonNumericValues. -/
def recordDistinct (sample : List String) (x : String) (cap : ℕ) : List String :=
  if sample.length < cap ∧ x ∉ sample then sample ++ [x] else sample

/-- Modelled from the spec: feed one numeric ordinal to the distribution
tracker, given the current overflow flag, exact map and estimator.  While
not overflowed, the exact map grows up to the cap; the moment an insertion
would exceed the cap the tracker permanently switches to overflow mode,
seeds the estimator with the distinct values already held and routes the
new key only to the estimator; after overflow every numeric ordinal is fed
to the estimator and only existing exact entries keep being updated. -/
def distStep (P : Params) (ovf : Bool) (d : List (ℚ × ℕ)) (sk : Finset ℚ) (v : ℚ) :
    Bool × List (ℚ × ℕ) × Finset ℚ :=
  if ovf then (true, bump d v, insert v sk)
  else if v ∈ keys d then (false, bump d v, sk)
  else if d.length < P.MAXIMUM_EMPIRICAL_DISTRIBUTION_SIZE then (false, d ++ [(v, 1)], sk)
  else (true, d, insert v (keys d).toFinset)

/-- The distribution tracker update written back into the state. -/
def addOrdinal (P : Params) (s : State) (v : ℚ) : State :=
  let t := distStep P s.m_EmpiricalDistributionOverflowed s.m_EmpiricalDistribution s.sketch v
  { s with m_EmpiricalDistributionOverflowed := t.1
           m_EmpiricalDistribution := t.2.1
           sketch := t.2.2 }

/-- One step of the running minimum accumulator over ordinals. -/
def optMin (acc : Option ℚ) (v : ℚ) : Option ℚ :=
  some (match acc with
        | none => v
        | some w => min w v)

/-- One step of the running maximum accumulator over ordinals. -/
def optMax (acc : Option ℚ) (v : ℚ) : Option ℚ :=
  some (match acc with
        | none => v
        | some w => max w v)

/-- Modelled from the spec: the numeric side effects of add, shared by the
addInteger, addPositiveInteger and addReal helpers of the header: bump the
numeric and, when appropriate, integer counters, update the min and max
order statistics, and feed the ordinal to the distribution tracker. -/
def addNumeric (P : Params) (s : State) (v : ℚ) (isInt : Bool) : State :=
  addOrdinal P
    { s with numericCount := s.numericCount + 1
             integerCount := s.integerCount + (if isInt then 1 else 0)
             m_Smallest := optMin s.m_Smallest v
             m_Largest := optMax s.m_Largest v } v

/-- Modelled from the spec: add one example.  The total count always
grows, the literal text is fed to the bounded distinct sample while it
has room, and the parse verdict decides between the numeric update and
recording the text in the bounded non-numeric sample.  No input is an
error. -/
def add (P : Params) (parse : String → ParseResult) (s : State) (ex : String) : State :=
  let s1 := { s with m_Count := s.m_Count + 1
                     m_DistinctValues := recordDistinct s.m_DistinctValues ex 3 }
  match parse ex with
  | .notNumeric =>
      { s1 with m_NonNumericValues := recordDistinct s1.m_NonNumericValues ex 3 }
  | .integer v => addNumeric P s1 (v : ℚ) true
  | .positiveInteger v => addNumeric P s1 (v : ℚ) true
  | .real v => addNumeric P s1 v false

/-- Replay a stream of examples into a freshly constructed classifier. -/
def replay (P : Params) (parse : String → ParseResult)
    (override : Option EUserDataType) (l : List String) : State :=
  l.foldl (add P parse) (init override)

/-- The running numeric proportion, the fraction of examples seen that
parsed as numeric; zero before any example, as in the source where the
stored running average starts at zero. -/
def m_NumericProportion (s : State) : ℚ :=
  if s.m_Count = 0 then 0 else Rat.divInt (s.numericCount : ℤ) (s.m_Count : ℤ)

/-- The running integer proportion, the fraction of examples seen that
parsed as integer. -/
def m_IntegerProportion (s : State) : ℚ :=
  if s.m_Count = 0 then 0 else Rat.divInt (s.integerCount : ℤ) (s.m_Count : ℤ)

/-- The empirical distribution read as a count function. -/
def distFun (s : State) : ℚ → ℕ :=
  fun v => lookupCount s.m_EmpiricalDistribution v

/-- Modelled from the spec: the distinct-value count the decision logic
consults, the exact distribution size while not overflowed and the
estimator cardinality afterwards. -/
def distinctValueCount (s : State) : ℕ :=
  if s.m_EmpiricalDistributionOverflowed then s.sketch.card
  else s.m_EmpiricalDistribution.length

/-- Modelled from the spec: the categoricalType helper of the header,
binary categorical when exactly two distinct literal values were observed
and categorical otherwise. -/
def categoricalType (s : State) : EDataType :=
  if s.m_DistinctValues.length = 2 then EDataType.binary else EDataType.categorical

/-- Modelled from the spec: the realType helper of the header; the spec
data model has a single real category. -/
def realType (_s : State) : EDataType :=
  EDataType.real

/-- Modelled from the spec: the integerType helper of the header; an
integer candidate with exactly two distinct numeric values is a flag, so
it is reclassified as binary categorical. -/
def integerType (s : State) : EDataType :=
  if distinctValueCount s = 2 then EDataType.binary else EDataType.integer

/-- Modelled from the spec: the isNumeric helper of the header; numeric
when the numeric proportion meets the strict threshold, or meets the
tolerant threshold while the distinct non-numeric strings observed are a
small set of suspected missing-value sentinels (at most two). -/
def isNumeric (P : Params) (s : State) : Bool :=
  decide (P.NUMERIC_PROPORTION_FOR_METRIC_STRICT ≤ m_NumericProportion s) ||
  (decide (P.NUMERIC_PROPORTION_FOR_METRIC_WITH_SUSPECTED_MISSING_VALUES ≤
             m_NumericProportion s) &&
   decide (s.m_NonNumericValues.length ≤ 2))

/-- Modelled from the spec: the isInteger helper of the header. -/
def isInteger (P : Params) (s : State) : Bool :=
  decide (P.INTEGER_PRORORTION_FOR_INTEGER ≤ m_IntegerProportion s)

/-- Modelled from the spec: the GMMGoodFit helper of the header is a
pluggable score of the empirical distribution; the model takes the
verdict as a parameter applied to the distribution. -/
def GMMGoodFit (gmm : (ℚ → ℕ) → Bool) (s : State) : Bool :=
  gmm (distFun s)

/-- Modelled from the spec: the decision procedure of computeType as a
pure function of the accumulated state.  An override maps directly to its
type; otherwise a non-numeric field is categorical or binary categorical
by its distinct literal count; a numeric field meeting the integer
threshold takes the integer branch; a real candidate may be reclassified
as categorical when the distribution has not overflowed, the mixture fit
is poor and very few distinct numeric values were seen. -/
def computeTypeValue (P : Params) (gmm : (ℚ → ℕ) → Bool) (s : State) : EDataType :=
  match s.m_Override with
  | some u => u.toDataType
  | none =>
    if isNumeric P s = false then categoricalType s
    else if isInteger P s then integerType s
    else if s.m_EmpiricalDistributionOverflowed = false &&
            GMMGoodFit gmm s = false &&
            decide (distinctValueCount s ≤ 2) then categoricalType s
    else realType s

/-- Modelled from the spec: computeType recomputes the decision from the
current state and writes it back into m_Type, touching nothing else. -/
def computeType (P : Params) (gmm : (ℚ → ℕ) → Bool) (s : State) : State :=
  { s with m_Type := some (computeTypeValue P gmm s) }

/-- The ordinals of the numeric examples of a stream, in stream order. -/
def ordinals (parse : String → ParseResult) (l : List String) : List ℚ :=
  l.filterMap (fun x => (parse x).ordinal)

/-- The non-numeric examples of a stream, in stream order. -/
def nonNumerics (parse : String → ParseResult) (l : List String) : List String :=
  l.filter (fun x => ((parse x).ordinal).isNone)

/-- The set of distinct ordinals a stream produces. -/
def distinctOrds (parse : String → ParseResult) (l : List String) : Finset ℚ :=
  (ordinals parse l).toFinset

/-- The number of examples of a stream that count toward the integer
proportion. -/
def integerCountOf (parse : String → ParseResult) (l : List String) : ℕ :=
  l.countP (fun x => (parse x).countsAsInteger)

/-- The running minimum of a list of ordinals, none for the empty list. -/
def minFold (xs : List ℚ) : Option ℚ :=
  xs.foldl optMin none

/-- The running maximum of a list of ordinals, none for the empty list. -/
def maxFold (xs : List ℚ) : Option ℚ :=
  xs.foldl optMax none

/-- What it means for an optional value to be the minimum of a list:
absent exactly for the empty list, and otherwise a least member. -/
def MinSpec (xs : List ℚ) (r : Option ℚ) : Prop :=
  (r = none ↔ xs = []) ∧ ∀ v, r = some v → v ∈ xs ∧ ∀ w ∈ xs, v ≤ w

/-- What it means for an optional value to be the maximum of a list:
absent exactly for the empty list, and otherwise a greatest member. -/
def MaxSpec (xs : List ℚ) (r : Option ℚ) : Prop :=
  (r = none ↔ xs = []) ∧ ∀ v, r = some v → v ∈ xs ∧ ∀ w ∈ xs, w ≤ v

/-- The invariant tying the distribution tracker of a reachable state to
the stream it has consumed: distinct keys; the overflow flag records
whether the distinct ordinal count passed the cap; while not overflowed
the exact map holds every distinct ordinal with its exact count and the
estimator is idle; after overflow the exact map is frozen at the cap and
the estimator holds every distinct ordinal. -/
def DistInv (P : Params) (parse : String → ParseResult) (l : List String) (s : State) : Prop :=
  (keys s.m_EmpiricalDistribution).Nodup ∧
  s.m_EmpiricalDistributionOverflowed =
    decide (P.MAXIMUM_EMPIRICAL_DISTRIBUTION_SIZE < (distinctOrds parse l).card) ∧
  (s.m_EmpiricalDistributionOverflowed = false →
    (keys s.m_EmpiricalDistribution).toFinset = distinctOrds parse l ∧
    s.sketch = ∅ ∧
    ∀ v, lookupCount s.m_EmpiricalDistribution v = (ordinals parse l).count v) ∧
  (s.m_EmpiricalDistributionOverflowed = true →
    s.m_EmpiricalDistribution.length = P.MAXIMUM_EMPIRICAL_DISTRIBUTION_SIZE ∧
    s.sketch = distinctOrds parse l)

/-- The invariant of a bounded distinct sample: it holds distinct strings
drawn from the values seen, its length is the seen cardinality capped at
three, and while below the cap it holds every value seen. -/
def SampleInv (sample : List String) (seen : Finset String) : Prop :=
  sample.Nodup ∧
  sample.toFinset ⊆ seen ∧
  sample.length = min 3 seen.card ∧
  (sample.length < 3 → sample.toFinset = seen)

/-- A sample built by folding the bounded distinct recorder over a
stream. -/
def sampleFold (l : List String) : List String :=
  l.foldl (fun smp x => recordDistinct smp x 3) []

/-- Test fixture standing in for the out-of-scope numeric string parser:
a finite table of verdicts, used only to instantiate theorems on concrete
inputs. -/
def parseFixture : String → ParseResult := fun x =>
  if x = "0" then ParseResult.integer 0
  else if x = "1" then ParseResult.integer 1
  else if x = "2" then ParseResult.integer 2
  else if x = "3" then ParseResult.integer 3
  else if x = "0.5" then ParseResult.real (Rat.divInt 1 2)
  else if x = "1.5" then ParseResult.real (Rat.divInt 3 2)
  else if x = "2.5" then ParseResult.real (Rat.divInt 5 2)
  else ParseResult.notNumeric

/-- Test fixture: a goodness-of-fit verdict that always reports a good
fit. -/
def gmmTrue : (ℚ → ℕ) → Bool := fun _ => true

/-- Test fixture: a goodness-of-fit verdict that always reports a poor
fit. -/
def gmmFalse : (ℚ → ℕ) → Bool := fun _ => false

/-- Test fixture: sensible thresholds with a roomy distribution cap. -/
def Pc : Params :=
  { NUMERIC_PROPORTION_FOR_METRIC_STRICT := Rat.divInt 9 10
    NUMERIC_PROPORTION_FOR_METRIC_WITH_SUSPECTED_MISSING_VALUES := Rat.divInt 1 2
    INTEGER_PRORORTION_FOR_INTEGER := Rat.divInt 9 10
    MAXIMUM_EMPIRICAL_DISTRIBUTION_SIZE := 5 }

/-- Test fixture: the same thresholds with a distribution cap of one, so
overflow is easy to exercise. -/
def Pone : Params :=
  { NUMERIC_PROPORTION_FOR_METRIC_STRICT := Rat.divInt 9 10
    NUMERIC_PROPORTION_FOR_METRIC_WITH_SUSPECTED_MISSING_VALUES := Rat.divInt 1 2
    INTEGER_PRORORTION_FOR_INTEGER := Rat.divInt 9 10
    MAXIMUM_EMPIRICAL_DISTRIBUTION_SIZE := 1 }

/-- Test fixture: a stream of seventeen copies of one real value and
three copies of one non-numeric sentinel. -/
def streamSeven : List String :=
  List.replicate 17 "0.5" ++ List.replicate 3 "NA"

/-- Test fixture: a stream of seventeen reals over three distinct values
and three copies of one non-numeric sentinel. -/
def streamSevenW : List String :=
  List.replicate 15 "0.5" ++ ["1.5", "2.5"] ++ List.replicate 3 "NA"

/-! Lemmas about the empirical distribution association list. -/

theorem keys_nil : keys [] = [] :=
  rfl

theorem keys_cons (p : ℚ × ℕ) (d : List (ℚ × ℕ)) : keys (p :: d) = p.1 :: keys d :=
  rfl

theorem bump_cons (p : ℚ × ℕ) (d : List (ℚ × ℕ)) (v : ℚ) :
    bump (p :: d) v = (if p.1 = v then (p.1, p.2 + 1) else p) :: bump d v :=
  rfl

theorem lookupCount_cons (p : ℚ × ℕ) (d : List (ℚ × ℕ)) (v : ℚ) :
    lookupCount (p :: d) v = if p.1 = v then p.2 else lookupCount d v :=
  rfl

theorem keys_bump (d : List (ℚ × ℕ)) (v : ℚ) : keys (bump d v) = keys d := by
  induction d with
  | nil => rfl
  | cons p d ih =>
      rw [bump_cons, keys_cons, keys_cons, ih]
      by_cases h : p.1 = v <;> simp [h]

theorem length_bump (d : List (ℚ × ℕ)) (v : ℚ) : (bump d v).length = d.length := by
  simp [bump]

theorem lookupCount_eq_zero (d : List (ℚ × ℕ)) (v : ℚ) (h : v ∉ keys d) :
    lookupCount d v = 0 := by
  induction d with
  | nil => rfl
  | cons p d ih =>
      rw [keys_cons] at h
      have h1 : ¬p.1 = v := fun hv => h (hv ▸ List.mem_cons_self p.1 (keys d))
      have h2 : v ∉ keys d := fun hv => h (List.mem_cons_of_mem p.1 hv)
      rw [lookupCount_cons, if_neg h1]
      exact ih h2

theorem lookupCount_bump_ne (d : List (ℚ × ℕ)) (v w : ℚ) (h : w ≠ v) :
    lookupCount (bump d v) w = lookupCount d w := by
  induction d with
  | nil => rfl
  | cons p d ih =>
      rw [bump_cons]
      by_cases h1 : p.1 = v
      · have hvw : ¬v = w := fun hw => h hw.symm
        simp [lookupCount_cons, h1, hvw, ih]
      · simp [lookupCount_cons, h1, ih]

theorem lookupCount_bump_self (d : List (ℚ × ℕ)) (v : ℚ) (h : v ∈ keys d) :
    lookupCount (bump d v) v = lookupCount d v + 1 := by
  induction d with
  | nil => simp [keys_nil] at h
  | cons p d ih =>
      rw [keys_cons] at h
      rw [bump_cons]
      by_cases h1 : p.1 = v
      · simp [lookupCount_cons, h1]
      · have h2 : v ∈ keys d := by
          rcases List.mem_cons.1 h with h' | h'
          · exact absurd h'.symm h1
          · exact h'
        simp [lookupCount_cons, h1, ih h2]

theorem lookupCount_append (d : List (ℚ × ℕ)) (v : ℚ) (n : ℕ) (w : ℚ) :
    lookupCount (d ++ [(v, n)]) w =
      if w ∈ keys d then lookupCount d w else if v = w then n else 0 := by
  induction d with
  | nil => simp [keys_nil, lookupCount]
  | cons p d ih =>
      by_cases h1 : p.1 = w
      · subst h1
        simp [List.cons_append, lookupCount_cons, keys_cons, List.mem_cons]
      · have h1' : ¬w = p.1 := fun h' => h1 h'.symm
        simp [List.cons_append, lookupCount_cons, keys_cons, List.mem_cons, h1, h1', ih]

theorem keys_append (d : List (ℚ × ℕ)) (v : ℚ) (n : ℕ) :
    keys (d ++ [(v, n)]) = keys d ++ [v] := by
  simp [keys]

/-! Lemmas about the bounded distinct samples. -/

theorem sampleInv_empty : SampleInv [] ∅ := by
  refine ⟨List.nodup_nil, ?_, ?_, ?_⟩ <;> simp

theorem sampleInv_record (smp : List String) (seen : Finset String) (x : String)
    (h : SampleInv smp seen) : SampleInv (recordDistinct smp x 3) (insert x seen) := by
  obtain ⟨hnd, hsub, hlen, hfull⟩ := h
  by_cases hx : x ∈ smp
  · rw [recordDistinct, if_neg (fun hc => hc.2 hx)]
    have hxseen : x ∈ seen := hsub (List.mem_toFinset.2 hx)
    rw [Finset.insert_eq_self.2 hxseen]
    exact ⟨hnd, hsub, hlen, hfull⟩
  · by_cases hroom : smp.length < 3
    · rw [recordDistinct, if_pos ⟨hroom, hx⟩]
      have hseen : smp.toFinset = seen := hfull hroom
      have hxseen : x ∉ seen := by rw [← hseen]; simpa using hx
      have hcard : (insert x seen).card = seen.card + 1 := Finset.card_insert_of_not_mem hxseen
      have hc3 : seen.card < 3 := by
        by_contra hge
        push_neg at hge
        rw [min_eq_left hge] at hlen
        omega
      have hsc : smp.length = seen.card := by
        rw [min_eq_right (le_of_lt hc3)] at hlen
        exact hlen
      refine ⟨?_, ?_, ?_, ?_⟩
      · rw [List.nodup_append]
        refine ⟨hnd, List.nodup_singleton x, ?_⟩
        intro a ha hax
        rw [List.mem_singleton] at hax
        exact hx (hax ▸ ha)
      · intro a ha
        rw [List.toFinset_append] at ha
        rcases Finset.mem_union.1 ha with h' | h'
        · exact Finset.mem_insert_of_mem (hsub h')
        · rw [List.toFinset_cons, List.toFinset_nil] at h'
          rcases Finset.mem_insert.1 h' with h'' | h''
          · exact h'' ▸ Finset.mem_insert_self x seen
          · exact absurd h'' (Finset.not_mem_empty a)
      · rw [List.length_append, List.length_singleton, hcard, hsc,
            min_eq_right (by omega : seen.card + 1 ≤ 3)]
      · intro _
        have hx2 : (smp ++ [x]).toFinset = seen ∪ {x} := by
          simp [List.toFinset_append, hseen]
        rw [hx2, Finset.union_comm, ← Finset.insert_eq]
    · rw [recordDistinct, if_neg (fun hc => hroom hc.1)]
      push_neg at hroom
      have hm3 : min 3 seen.card ≤ 3 := min_le_left 3 seen.card
      have hl3 : smp.length = 3 := by omega
      have hcge : 3 ≤ seen.card := by
        by_contra hlt
        push_neg at hlt
        rw [min_eq_right (le_of_lt hlt)] at hlen
        omega
      have hmono : seen.card ≤ (insert x seen).card :=
        Finset.card_le_card (Finset.subset_insert x seen)
      refine ⟨hnd, hsub.trans (Finset.subset_insert x seen), ?_, ?_⟩
      · rw [hl3, min_eq_left (by omega : 3 ≤ (insert x seen).card)]
      · intro h3
        rw [hl3] at h3
        omega

theorem sampleFold_go (l : List String) : ∀ smp seen, SampleInv smp seen →
    SampleInv (l.foldl (fun s x => recordDistinct s x 3) smp) (seen ∪ l.toFinset) := by
  induction l with
  | nil => intro smp seen h; simpa using h
  | cons x t ih =>
      intro smp seen h
      have h3 := ih _ _ (sampleInv_record smp seen x h)
      rw [Finset.insert_union] at h3
      rw [List.toFinset_cons, Finset.union_insert]
      simpa using h3

theorem sampleFold_inv (l : List String) : SampleInv (sampleFold l) l.toFinset := by
  have h := sampleFold_go l [] ∅ sampleInv_empty
  simpa [sampleFold] using h

/-! Step lemmas: the effect of one add call on each state field. -/

theorem add_m_Count (P : Params) (parse : String → ParseResult) (s : State) (x : String) :
    (add P parse s x).m_Count = s.m_Count + 1 := by
  cases h : parse x <;> simp [add, h, addNumeric, addOrdinal]

theorem add_m_Override (P : Params) (parse : String → ParseResult) (s : State) (x : String) :
    (add P parse s x).m_Override = s.m_Override := by
  cases h : parse x <;> simp [add, h, addNumeric, addOrdinal]

theorem add_m_Type (P : Params) (parse : String → ParseResult) (s : State) (x : String) :
    (add P parse s x).m_Type = s.m_Type := by
  cases h : parse x <;> simp [add, h, addNumeric, addOrdinal]

theorem add_numericCount (P : Params) (parse : String → ParseResult) (s : State) (x : String) :
    (add P parse s x).numericCount =
      s.numericCount + (if ((parse x).ordinal).isSome then 1 else 0) := by
  cases h : parse x <;> simp [add, h, addNumeric, addOrdinal, ParseResult.ordinal]

theorem add_integerCount (P : Params) (parse : String → ParseResult) (s : State) (x : String) :
    (add P parse s x).integerCount =
      s.integerCount + (if (parse x).countsAsInteger then 1 else 0) := by
  cases h : parse x <;>
    simp [add, h, addNumeric, addOrdinal, ParseResult.countsAsInteger]

theorem add_m_DistinctValues (P : Params) (parse : String → ParseResult) (s : State) (x : String) :
    (add P parse s x).m_DistinctValues = recordDistinct s.m_DistinctValues x 3 := by
  cases h : parse x <;> simp [add, h, addNumeric, addOrdinal]

theorem add_m_NonNumericValues (P : Params) (parse : String → ParseResult) (s : State) (x : String) :
    (add P parse s x).m_NonNumericValues =
      if ((parse x).ordinal).isNone then recordDistinct s.m_NonNumericValues x 3
      else s.m_NonNumericValues := by
  cases h : parse x <;> simp [add, h, addNumeric, addOrdinal, ParseResult.ordinal]

theorem add_m_Smallest (P : Params) (parse : String → ParseResult) (s : State) (x : String) :
    (add P parse s x).m_Smallest =
      match (parse x).ordinal with
      | none => s.m_Smallest
      | some v => optMin s.m_Smallest v := by
  cases h : parse x <;> simp [add, h, addNumeric, addOrdinal, ParseResult.ordinal]

theorem add_m_Largest (P : Params) (parse : String → ParseResult) (s : State) (x : String) :
    (add P parse s x).m_Largest =
      match (parse x).ordinal with
      | none => s.m_Largest
      | some v => optMax s.m_Largest v := by
  cases h : parse x <;> simp [add, h, addNumeric, addOrdinal, ParseResult.ordinal]

theorem add_m_EmpiricalDistributionOverflowed (P : Params) (parse : String → ParseResult)
    (s : State) (x : String) :
    (add P parse s x).m_EmpiricalDistributionOverflowed =
      match (parse x).ordinal with
      | none => s.m_EmpiricalDistributionOverflowed
      | some v =>
          (distStep P s.m_EmpiricalDistributionOverflowed s.m_EmpiricalDistribution
            s.sketch v).1 := by
  cases h : parse x <;> simp [add, h, addNumeric, addOrdinal, ParseResult.ordinal]

theorem add_m_EmpiricalDistribution (P : Params) (parse : String → ParseResult)
    (s : State) (x : String) :
    (add P parse s x).m_EmpiricalDistribution =
      match (parse x).ordinal with
      | none => s.m_EmpiricalDistribution
      | some v =>
          (distStep P s.m_EmpiricalDistributionOverflowed s.m_EmpiricalDistribution
            s.sketch v).2.1 := by
  cases h : parse x <;> simp [add, h, addNumeric, addOrdinal, ParseResult.ordinal]

theorem add_sketch (P : Params) (parse : String → ParseResult) (s : State) (x : String) :
    (add P parse s x).sketch =
      match (parse x).ordinal with
      | none => s.sketch
      | some v =>
          (distStep P s.m_EmpiricalDistributionOverflowed s.m_EmpiricalDistribution
            s.sketch v).2.2 := by
  cases h : parse x <;> simp [add, h, addNumeric, addOrdinal, ParseResult.ordinal]

/-! Stream-level shapes of the derived statistics. -/

theorem ordinals_cons (parse : String → ParseResult) (x : String) (t : List String) :
    ordinals parse (x :: t) =
      match (parse x).ordinal with
      | none => ordinals parse t
      | some v => v :: ordinals parse t := by
  cases hx : (parse x).ordinal <;> simp [ordinals, List.filterMap_cons, hx]

theorem ordinals_append (parse : String → ParseResult) (l t : List String) :
    ordinals parse (l ++ t) = ordinals parse l ++ ordinals parse t := by
  simp [ordinals]

theorem nonNumerics_cons (parse : String → ParseResult) (x : String) (t : List String) :
    nonNumerics parse (x :: t) =
      if ((parse x).ordinal).isNone then x :: nonNumerics parse t
      else nonNumerics parse t := by
  by_cases h : ((parse x).ordinal).isNone <;> simp [nonNumerics, List.filter_cons, h]

theorem integerCountOf_cons (parse : String → ParseResult) (x : String) (t : List String) :
    integerCountOf parse (x :: t) =
      integerCountOf parse t + if (parse x).countsAsInteger then 1 else 0 := by
  simp [integerCountOf, List.countP_cons]

/-! Folding a stream into the classifier, field by field. -/

theorem foldl_add_m_Count (P : Params) (parse : String → ParseResult) (l : List String) :
    ∀ s : State, (l.foldl (add P parse) s).m_Count = s.m_Count + l.length := by
  induction l with
  | nil => intro s; simp
  | cons x t ih =>
      intro s
      rw [List.foldl_cons, ih, add_m_Count, List.length_cons]
      omega

theorem foldl_add_m_Override (P : Params) (parse : String → ParseResult) (l : List String) :
    ∀ s : State, (l.foldl (add P parse) s).m_Override = s.m_Override := by
  induction l with
  | nil => intro s; rfl
  | cons x t ih =>
      intro s
      rw [List.foldl_cons, ih, add_m_Override]

theorem foldl_add_m_Type (P : Params) (parse : String → ParseResult) (l : List String) :
    ∀ s : State, (l.foldl (add P parse) s).m_Type = s.m_Type := by
  induction l with
  | nil => intro s; rfl
  | cons x t ih =>
      intro s
      rw [List.foldl_cons, ih, add_m_Type]

theorem foldl_add_numericCount (P : Params) (parse : String → ParseResult) (l : List String) :
    ∀ s : State,
      (l.foldl (add P parse) s).numericCount = s.numericCount + (ordinals parse l).length := by
  induction l with
  | nil => intro s; simp [ordinals]
  | cons x t ih =>
      intro s
      rw [List.foldl_cons, ih, add_numericCount, ordinals_cons]
      cases hx : (parse x).ordinal <;> simp <;> omega

theorem foldl_add_integerCount (P : Params) (parse : String → ParseResult) (l : List String) :
    ∀ s : State,
      (l.foldl (add P parse) s).integerCount = s.integerCount + integerCountOf parse l := by
  induction l with
  | nil => intro s; simp [integerCountOf]
  | cons x t ih =>
      intro s
      rw [List.foldl_cons, ih, add_integerCount, integerCountOf_cons]
      by_cases hx : (parse x).countsAsInteger <;> simp [hx] <;> omega

theorem foldl_add_m_DistinctValues (P : Params) (parse : String → ParseResult)
    (l : List String) : ∀ s : State,
    (l.foldl (add P parse) s).m_DistinctValues =
      l.foldl (fun smp y => recordDistinct smp y 3) s.m_DistinctValues := by
  induction l with
  | nil => intro s; rfl
  | cons x t ih =>
      intro s
      rw [List.foldl_cons, ih, add_m_DistinctValues, List.foldl_cons]

theorem foldl_add_m_NonNumericValues (P : Params) (parse : String → ParseResult)
    (l : List String) : ∀ s : State,
    (l.foldl (add P parse) s).m_NonNumericValues =
      (nonNumerics parse l).foldl (fun smp y => recordDistinct smp y 3)
        s.m_NonNumericValues := by
  induction l with
  | nil => intro s; rfl
  | cons x t ih =>
      intro s
      rw [List.foldl_cons, ih, add_m_NonNumericValues, nonNumerics_cons]
      by_cases hx : ((parse x).ordinal).isNone <;> simp [hx]

theorem foldl_add_m_Smallest (P : Params) (parse : String → ParseResult) (l : List String) :
    ∀ s : State,
      (l.foldl (add P parse) s).m_Smallest = (ordinals parse l).foldl optMin s.m_Smallest := by
  induction l with
  | nil => intro s; rfl
  | cons x t ih =>
      intro s
      rw [List.foldl_cons, ih, add_m_Smallest, ordinals_cons]
      cases hx : (parse x).ordinal <;> simp

theorem foldl_add_m_Largest (P : Params) (parse : String → ParseResult) (l : List String) :
    ∀ s : State,
      (l.foldl (add P parse) s).m_Largest = (ordinals parse l).foldl optMax s.m_Largest := by
  induction l with
  | nil => intro s; rfl
  | cons x t ih =>
      intro s
      rw [List.foldl_cons, ih, add_m_Largest, ordinals_cons]
      cases hx : (parse x).ordinal <;> simp

/-! The replayed state, field by field. -/

theorem replay_m_Count (P : Params) (parse : String → ParseResult)
    (o : Option EUserDataType) (l : List String) :
    (replay P parse o l).m_Count = l.length := by
  rw [replay, foldl_add_m_Count]
  simp [init]

theorem replay_m_Override (P : Params) (parse : String → ParseResult)
    (o : Option EUserDataType) (l : List String) :
    (replay P parse o l).m_Override = o := by
  rw [replay, foldl_add_m_Override]
  rfl

theorem replay_m_Type (P : Params) (parse : String → ParseResult)
    (o : Option EUserDataType) (l : List String) :
    (replay P parse o l).m_Type = none := by
  rw [replay, foldl_add_m_Type]
  rfl

theorem replay_numericCount (P : Params) (parse : String → ParseResult)
    (o : Option EUserDataType) (l : List String) :
    (replay P parse o l).numericCount = (ordinals parse l).length := by
  rw [replay, foldl_add_numericCount]
  simp [init]

theorem replay_integerCount (P : Params) (parse : String → ParseResult)
    (o : Option EUserDataType) (l : List String) :
    (replay P parse o l).integerCount = integerCountOf parse l := by
  rw [replay, foldl_add_integerCount]
  simp [init]

theorem replay_m_DistinctValues (P : Params) (parse : String → ParseResult)
    (o : Option EUserDataType) (l : List String) :
    (replay P parse o l).m_DistinctValues = sampleFold l := by
  rw [replay, foldl_add_m_DistinctValues, sampleFold]
  rfl

theorem replay_m_NonNumericValues (P : Params) (parse : String → ParseResult)
    (o : Option EUserDataType) (l : List String) :
    (replay P parse o l).m_NonNumericValues = sampleFold (nonNumerics parse l) := by
  rw [replay, foldl_add_m_NonNumericValues, sampleFold]
  rfl

theorem replay_m_Smallest (P : Params) (parse : String → ParseResult)
    (o : Option EUserDataType) (l : List String) :
    (replay P parse o l).m_Smallest = minFold (ordinals parse l) := by
  rw [replay, foldl_add_m_Smallest, minFold]
  rfl

theorem replay_m_Largest (P : Params) (parse : String → ParseResult)
    (o : Option EUserDataType) (l : List String) :
    (replay P parse o l).m_Largest = maxFold (ordinals parse l) := by
  rw [replay, foldl_add_m_Largest, maxFold]
  rfl

/-! The running minimum and maximum satisfy their specifications. -/

theorem minFold_spec (xs : List ℚ) : MinSpec xs (minFold xs) := by
  induction xs using List.reverseRecOn with
  | nil =>
      exact ⟨by simp [minFold], fun v hv => by simp [minFold] at hv⟩
  | append_singleton t v ih =>
      have hstep : minFold (t ++ [v]) = optMin (minFold t) v := by
        rw [minFold, List.foldl_append, List.foldl_cons, List.foldl_nil, minFold]
      obtain ⟨hnone, hsome⟩ := ih
      cases hmf : minFold t with
      | none =>
          have ht : t = [] := hnone.1 hmf
          subst ht
          rw [hstep, hmf]
          refine ⟨by simp [optMin], ?_⟩
          intro u hu
          rw [optMin] at hu
          have huv : u = v := by
            simpa using hu.symm
          subst huv
          simp
      | some w =>
          obtain ⟨hwmem, hwle⟩ := hsome w hmf
          rw [hstep, hmf]
          refine ⟨by simp [optMin], ?_⟩
          intro u hu
          have huv : u = min w v := by
            simpa [optMin] using hu.symm
          subst huv
          rcases le_total w v with h | h
          · rw [min_eq_left h]
            refine ⟨List.mem_append_left _ hwmem, ?_⟩
            intro z hz
            rcases List.mem_append.1 hz with hz | hz
            · exact hwle z hz
            · rw [List.mem_singleton.1 hz]
              exact h
          · rw [min_eq_right h]
            refine ⟨List.mem_append_right _ (List.mem_singleton.2 rfl), ?_⟩
            intro z hz
            rcases List.mem_append.1 hz with hz | hz
            · exact le_trans h (hwle z hz)
            · rw [List.mem_singleton.1 hz]

theorem maxFold_spec (xs : List ℚ) : MaxSpec xs (maxFold xs) := by
  induction xs using List.reverseRecOn with
  | nil =>
      exact ⟨by simp [maxFold], fun v hv => by simp [maxFold] at hv⟩
  | append_singleton t v ih =>
      have hstep : maxFold (t ++ [v]) = optMax (maxFold t) v := by
        rw [maxFold, List.foldl_append, List.foldl_cons, List.foldl_nil, maxFold]
      obtain ⟨hnone, hsome⟩ := ih
      cases hmf : maxFold t with
      | none =>
          have ht : t = [] := hnone.1 hmf
          subst ht
          rw [hstep, hmf]
          refine ⟨by simp [optMax], ?_⟩
          intro u hu
          have huv : u = v := by
            simpa [optMax] using hu.symm
          subst huv
          simp
      | some w =>
          obtain ⟨hwmem, hwle⟩ := hsome w hmf
          rw [hstep, hmf]
          refine ⟨by simp [optMax], ?_⟩
          intro u hu
          have huv : u = max w v := by
            simpa [optMax] using hu.symm
          subst huv
          rcases le_total v w with h | h
          · rw [max_eq_left h]
            refine ⟨List.mem_append_left _ hwmem, ?_⟩
            intro z hz
            rcases List.mem_append.1 hz with hz | hz
            · exact hwle z hz
            · rw [List.mem_singleton.1 hz]
              exact h
          · rw [max_eq_right h]
            refine ⟨List.mem_append_right _ (List.mem_singleton.2 rfl), ?_⟩
            intro z hz
            rcases List.mem_append.1 hz with hz | hz
            · exact le_trans (hwle z hz) h
            · rw [List.mem_singleton.1 hz]

/-! Shapes of the distinct ordinal set as the stream grows. -/

theorem distinctOrds_append_none (parse : String → ParseResult) (t : List String)
    (x : String) (hx : (parse x).ordinal = none) :
    distinctOrds parse (t ++ [x]) = distinctOrds parse t := by
  rw [distinctOrds, distinctOrds, ordinals_append]
  simp [ordinals, hx]

theorem ordinals_append_none (parse : String → ParseResult) (t : List String)
    (x : String) (hx : (parse x).ordinal = none) :
    ordinals parse (t ++ [x]) = ordinals parse t := by
  rw [ordinals_append]
  simp [ordinals, hx]

theorem ordinals_append_some (parse : String → ParseResult) (t : List String)
    (x : String) (v : ℚ) (hx : (parse x).ordinal = some v) :
    ordinals parse (t ++ [x]) = ordinals parse t ++ [v] := by
  rw [ordinals_append]
  simp [ordinals, hx]

theorem distinctOrds_append_some (parse : String → ParseResult) (t : List String)
    (x : String) (v : ℚ) (hx : (parse x).ordinal = some v) :
    distinctOrds parse (t ++ [x]) = insert v (distinctOrds parse t) := by
  rw [distinctOrds, ordinals_append_some parse t x v hx, List.toFinset_append]
  rw [show ([v] : List ℚ).toFinset = {v} by simp]
  rw [Finset.union_comm, ← Finset.insert_eq]
  rfl

/-! The distribution tracker invariant holds along every stream. -/

theorem replay_DistInv (P : Params) (parse : String → ParseResult)
    (o : Option EUserDataType) (l : List String) :
    DistInv P parse l (replay P parse o l) := by
  induction l using List.reverseRecOn with
  | nil =>
      refine ⟨?_, ?_, ?_, ?_⟩
      · simp [replay, init, keys]
      · simp [replay, init, distinctOrds, ordinals]
      · intro _
        refine ⟨?_, ?_, ?_⟩
        · simp [replay, init, keys, distinctOrds, ordinals]
        · simp [replay, init]
        · intro v
          simp [replay, init, lookupCount, ordinals]
      · intro h
        simp [replay, init] at h
  | append_singleton t x ih =>
      have hrep : replay P parse o (t ++ [x]) = add P parse (replay P parse o t) x := by
        rw [replay, List.foldl_append]
        rfl
      set s := replay P parse o t with hs
      obtain ⟨hnd, hovf, hnot, hyes⟩ := ih
      cases hx : (parse x).ordinal with
      | none =>
          have d1 : (replay P parse o (t ++ [x])).m_EmpiricalDistributionOverflowed =
              s.m_EmpiricalDistributionOverflowed := by
            rw [hrep, add_m_EmpiricalDistributionOverflowed, hx]
          have d2 : (replay P parse o (t ++ [x])).m_EmpiricalDistribution =
              s.m_EmpiricalDistribution := by
            rw [hrep, add_m_EmpiricalDistribution, hx]
          have d3 : (replay P parse o (t ++ [x])).sketch = s.sketch := by
            rw [hrep, add_sketch, hx]
          have eD := distinctOrds_append_none parse t x hx
          have eO := ordinals_append_none parse t x hx
          refine ⟨by rw [d2]; exact hnd, by rw [d1, eD]; exact hovf, ?_, ?_⟩
          · intro hf
            rw [d1] at hf
            obtain ⟨a, b, c⟩ := hnot hf
            exact ⟨by rw [d2, eD]; exact a, by rw [d3]; exact b,
              fun w => by rw [d2, eO]; exact c w⟩
          · intro hf
            rw [d1] at hf
            obtain ⟨a, b⟩ := hyes hf
            exact ⟨by rw [d2]; exact a, by rw [d3, eD]; exact b⟩
      | some v =>
          have eD := distinctOrds_append_some parse t x v hx
          have eO := ordinals_append_some parse t x v hx
          by_cases hov : s.m_EmpiricalDistributionOverflowed = true
          · have hM : P.MAXIMUM_EMPIRICAL_DISTRIBUTION_SIZE < (distinctOrds parse t).card := by
              rw [hov] at hovf
              exact of_decide_eq_true hovf.symm
            obtain ⟨hlen, hsk⟩ := hyes hov
            have d1 : (replay P parse o (t ++ [x])).m_EmpiricalDistributionOverflowed = true := by
              rw [hrep, add_m_EmpiricalDistributionOverflowed, hx]
              simp [distStep, hov]
            have d2 : (replay P parse o (t ++ [x])).m_EmpiricalDistribution =
                bump s.m_EmpiricalDistribution v := by
              rw [hrep, add_m_EmpiricalDistribution, hx]
              simp [distStep, hov]
            have d3 : (replay P parse o (t ++ [x])).sketch = insert v s.sketch := by
              rw [hrep, add_sketch, hx]
              simp [distStep, hov]
            refine ⟨by rw [d2, keys_bump]; exact hnd, ?_, ?_, ?_⟩
            · rw [d1, eD]
              symm
              rw [decide_eq_true_eq]
              exact lt_of_lt_of_le hM (Finset.card_le_card (Finset.subset_insert v _))
            · intro hf
              rw [d1] at hf
              simp at hf
            · intro _
              exact ⟨by rw [d2, length_bump]; exact hlen, by rw [d3, hsk, eD]⟩
          · have hov' : s.m_EmpiricalDistributionOverflowed = false := by
              rwa [Bool.not_eq_true] at hov
            have hMle : (distinctOrds parse t).card ≤ P.MAXIMUM_EMPIRICAL_DISTRIBUTION_SIZE := by
              rw [hov'] at hovf
              exact Nat.not_lt.1 (of_decide_eq_false hovf.symm)
            obtain ⟨hkeys, hsk0, hcount⟩ := hnot hov'
            have hlencard : s.m_EmpiricalDistribution.length = (distinctOrds parse t).card := by
              rw [← hkeys, List.toFinset_card_of_nodup hnd]
              simp [keys]
            by_cases hvk : v ∈ keys s.m_EmpiricalDistribution
            · have hvD : v ∈ distinctOrds parse t := by
                rw [← hkeys]
                exact List.mem_toFinset.2 hvk
              have eIns : insert v (distinctOrds parse t) = distinctOrds parse t :=
                Finset.insert_eq_self.2 hvD
              have d1 : (replay P parse o (t ++ [x])).m_EmpiricalDistributionOverflowed =
                  false := by
                rw [hrep, add_m_EmpiricalDistributionOverflowed, hx]
                simp [distStep, hov', hvk]
              have d2 : (replay P parse o (t ++ [x])).m_EmpiricalDistribution =
                  bump s.m_EmpiricalDistribution v := by
                rw [hrep, add_m_EmpiricalDistribution, hx]
                simp [distStep, hov', hvk]
              have d3 : (replay P parse o (t ++ [x])).sketch = s.sketch := by
                rw [hrep, add_sketch, hx]
                simp [distStep, hov', hvk]
              refine ⟨by rw [d2, keys_bump]; exact hnd, ?_, ?_, ?_⟩
              · rw [d1, eD, eIns]
                rw [hov'] at hovf
                exact hovf
              · intro _
                refine ⟨?_, ?_, ?_⟩
                · rw [d2, keys_bump, hkeys, eD, eIns]
                · rw [d3]
                  exact hsk0
                · intro w
                  rw [d2, eO]
                  by_cases hwv : w = v
                  · subst hwv
                    rw [lookupCount_bump_self _ _ hvk, hcount w, List.count_append]
                    simp
                  · rw [lookupCount_bump_ne _ _ _ hwv, hcount w, List.count_append]
                    have h0 : ([v] : List ℚ).count w = 0 :=
                      List.count_eq_zero.2 (by simp [hwv])
                    rw [h0]
                    omega
              · intro hf
                rw [d1] at hf
                simp at hf
            · have hvD : v ∉ distinctOrds parse t := by
                rw [← hkeys]
                exact fun hc => hvk (List.mem_toFinset.1 hc)
              have hcard1 : (insert v (distinctOrds parse t)).card =
                  (distinctOrds parse t).card + 1 := Finset.card_insert_of_not_mem hvD
              by_cases hroom :
                  s.m_EmpiricalDistribution.length < P.MAXIMUM_EMPIRICAL_DISTRIBUTION_SIZE
              · have d1 : (replay P parse o (t ++ [x])).m_EmpiricalDistributionOverflowed =
                    false := by
                  rw [hrep, add_m_EmpiricalDistributionOverflowed, hx]
                  simp [distStep, hov', hvk, hroom]
                have d2 : (replay P parse o (t ++ [x])).m_EmpiricalDistribution =
                    s.m_EmpiricalDistribution ++ [(v, 1)] := by
                  rw [hrep, add_m_EmpiricalDistribution, hx]
                  simp [distStep, hov', hvk, hroom]
                have d3 : (replay P parse o (t ++ [x])).sketch = s.sketch := by
                  rw [hrep, add_sketch, hx]
                  simp [distStep, hov', hvk, hroom]
                refine ⟨?_, ?_, ?_, ?_⟩
                · rw [d2, keys_append, List.nodup_append]
                  refine ⟨hnd, List.nodup_singleton v, ?_⟩
                  intro a ha hav
                  rw [List.mem_singleton] at hav
                  exact hvk (hav ▸ ha)
                · rw [d1, eD]
                  symm
                  rw [decide_eq_false_iff_not]
                  rw [hcard1]
                  omega
                · intro _
                  refine ⟨?_, ?_, ?_⟩
                  · rw [d2, keys_append, eD, List.toFinset_append, hkeys]
                    rw [show (([v] : List ℚ)).toFinset = {v} by simp]
                    rw [Finset.union_comm, ← Finset.insert_eq]
                  · rw [d3]
                    exact hsk0
                  · intro w
                    rw [d2, eO, lookupCount_append]
                    by_cases hw : w ∈ keys s.m_EmpiricalDistribution
                    · rw [if_pos hw, hcount w, List.count_append]
                      have h0 : ([v] : List ℚ).count w = 0 :=
                        List.count_eq_zero.2
                          (fun hc => hvk ((List.mem_singleton.1 hc) ▸ hw))
                      rw [h0]
                      omega
                    · rw [if_neg hw]
                      have hcw : (ordinals parse t).count w = 0 := by
                        rw [← hcount w]
                        exact lookupCount_eq_zero _ _ hw
                      rw [List.count_append, hcw]
                      by_cases hwv : v = w
                      · rw [if_pos hwv, hwv]
                        have h1 : ([w] : List ℚ).count w = 1 := by simp
                        rw [h1]
                      · rw [if_neg hwv]
                        have h0 : ([v] : List ℚ).count w = 0 :=
                          List.count_eq_zero.2
                            (fun hc => hwv (List.mem_singleton.1 hc).symm)
                        rw [h0]
                · intro hf
                  rw [d1] at hf
                  simp at hf
              · have hfull : s.m_EmpiricalDistribution.length =
                    P.MAXIMUM_EMPIRICAL_DISTRIBUTION_SIZE := by omega
                have d1 : (replay P parse o (t ++ [x])).m_EmpiricalDistributionOverflowed =
                    true := by
                  rw [hrep, add_m_EmpiricalDistributionOverflowed, hx]
                  simp [distStep, hov', hvk, hroom]
                have d2 : (replay P parse o (t ++ [x])).m_EmpiricalDistribution =
                    s.m_EmpiricalDistribution := by
                  rw [hrep, add_m_EmpiricalDistribution, hx]
                  simp [distStep, hov', hvk, hroom]
                have d3 : (replay P parse o (t ++ [x])).sketch =
                    insert v (keys s.m_EmpiricalDistribution).toFinset := by
                  rw [hrep, add_sketch, hx]
                  simp [distStep, hov', hvk, hroom]
                refine ⟨by rw [d2]; exact hnd, ?_, ?_, ?_⟩
                · rw [d1, eD]
                  symm
                  rw [decide_eq_true_eq]
                  rw [hcard1]
                  omega
                · intro hf
                  rw [d1] at hf
                  simp at hf
                · intro _
                  exact ⟨by rw [d2]; exact hfull, by rw [d3, hkeys, eD]⟩

/-! Consequences of the distribution invariant. -/

theorem replay_overflowed_iff (P : Params) (parse : String → ParseResult)
    (o : Option EUserDataType) (l : List String) :
    (replay P parse o l).m_EmpiricalDistributionOverflowed = true ↔
      P.MAXIMUM_EMPIRICAL_DISTRIBUTION_SIZE < (distinctOrds parse l).card := by
  rw [(replay_DistInv P parse o l).2.1]
  exact ⟨of_decide_eq_true, decide_eq_true⟩

theorem replay_dist_length (P : Params) (parse : String → ParseResult)
    (o : Option EUserDataType) (l : List String) :
    (replay P parse o l).m_EmpiricalDistribution.length =
      min P.MAXIMUM_EMPIRICAL_DISTRIBUTION_SIZE (distinctOrds parse l).card := by
  obtain ⟨hnd, hovf, hnot, hyes⟩ := replay_DistInv P parse o l
  by_cases hov : (replay P parse o l).m_EmpiricalDistributionOverflowed = true
  · have hM : P.MAXIMUM_EMPIRICAL_DISTRIBUTION_SIZE < (distinctOrds parse l).card := by
      rw [hov] at hovf
      exact of_decide_eq_true hovf.symm
    rw [(hyes hov).1, min_eq_left (le_of_lt hM)]
  · have hov' : (replay P parse o l).m_EmpiricalDistributionOverflowed = false := by
      rwa [Bool.not_eq_true] at hov
    have hMle : (distinctOrds parse l).card ≤ P.MAXIMUM_EMPIRICAL_DISTRIBUTION_SIZE := by
      rw [hov'] at hovf
      exact Nat.not_lt.1 (of_decide_eq_false hovf.symm)
    obtain ⟨hkeys, _, _⟩ := hnot hov'
    rw [min_eq_right hMle, ← hkeys, List.toFinset_card_of_nodup hnd]
    simp [keys]

theorem replay_distinctValueCount (P : Params) (parse : String → ParseResult)
    (o : Option EUserDataType) (l : List String) :
    distinctValueCount (replay P parse o l) = (distinctOrds parse l).card := by
  obtain ⟨hnd, hovf, hnot, hyes⟩ := replay_DistInv P parse o l
  rw [distinctValueCount]
  by_cases hov : (replay P parse o l).m_EmpiricalDistributionOverflowed = true
  · rw [if_pos hov, (hyes hov).2]
  · have hov' : (replay P parse o l).m_EmpiricalDistributionOverflowed = false := by
      rwa [Bool.not_eq_true] at hov
    have hMle : (distinctOrds parse l).card ≤ P.MAXIMUM_EMPIRICAL_DISTRIBUTION_SIZE := by
      rw [hov'] at hovf
      exact Nat.not_lt.1 (of_decide_eq_false hovf.symm)
    obtain ⟨hkeys, _, _⟩ := hnot hov'
    rw [if_neg hov, ← hkeys, List.toFinset_card_of_nodup hnd]
    simp [keys]

theorem replay_lookupCount (P : Params) (parse : String → ParseResult)
    (o : Option EUserDataType) (l : List String)
    (hov : (replay P parse o l).m_EmpiricalDistributionOverflowed = false) (w : ℚ) :
    lookupCount (replay P parse o l).m_EmpiricalDistribution w =
      (ordinals parse l).count w := by
  exact ((replay_DistInv P parse o l).2.2.1 hov).2.2 w

theorem add_overflow_mono (P : Params) (parse : String → ParseResult) (s : State)
    (x : String) (h : s.m_EmpiricalDistributionOverflowed = true) :
    (add P parse s x).m_EmpiricalDistributionOverflowed = true := by
  rw [add_m_EmpiricalDistributionOverflowed]
  cases hx : (parse x).ordinal <;> simp [h, distStep]

theorem replay_add_overflow_iff (P : Params) (parse : String → ParseResult)
    (o : Option EUserDataType) (l : List String) (x : String) :
    (add P parse (replay P parse o l) x).m_EmpiricalDistributionOverflowed = true ↔
      ((replay P parse o l).m_EmpiricalDistributionOverflowed = true ∨
       ∃ v, (parse x).ordinal = some v ∧
         v ∉ keys (replay P parse o l).m_EmpiricalDistribution ∧
         (replay P parse o l).m_EmpiricalDistribution.length =
           P.MAXIMUM_EMPIRICAL_DISTRIBUTION_SIZE) := by
  rw [add_m_EmpiricalDistributionOverflowed]
  cases hx : (parse x).ordinal with
  | none => simp [hx]
  | some v =>
      by_cases hov : (replay P parse o l).m_EmpiricalDistributionOverflowed = true
      · simp [distStep, hov]
      · have hov' : (replay P parse o l).m_EmpiricalDistributionOverflowed = false := by
          rwa [Bool.not_eq_true] at hov
        by_cases hvk : v ∈ keys (replay P parse o l).m_EmpiricalDistribution
        · simp only [distStep, hov', Bool.false_eq_true, if_false, if_pos hvk]
          constructor
          · intro hfalse
            exact hfalse.elim
          · intro hc
            rcases hc with hc | ⟨w, hw, hwk, _⟩
            · exact hc.elim
            · injection hw with hw
              exact hwk (hw ▸ hvk)
        · by_cases hroom : (replay P parse o l).m_EmpiricalDistribution.length <
              P.MAXIMUM_EMPIRICAL_DISTRIBUTION_SIZE
          · simp only [distStep, hov', Bool.false_eq_true, if_false, if_neg hvk,
              if_pos hroom]
            constructor
            · intro hfalse
              exact hfalse.elim
            · intro hc
              rcases hc with hc | ⟨w, hw, _, hwlen⟩
              · exact hc.elim
              · omega
          · simp only [distStep, hov', Bool.false_eq_true, if_false, if_neg hvk,
              if_neg hroom]
            constructor
            · intro _
              refine Or.inr ⟨v, rfl, hvk, ?_⟩
              have hle : (replay P parse o l).m_EmpiricalDistribution.length ≤
                  P.MAXIMUM_EMPIRICAL_DISTRIBUTION_SIZE := by
                rw [replay_dist_length]
                exact min_le_left _ _
              omega
            · intro _
              trivial

/-! Permutation invariance of the derived stream statistics. -/

theorem minFold_perm (xs ys : List ℚ) (hp : xs.Perm ys) : minFold xs = minFold ys := by
  obtain ⟨hn1, hs1⟩ := minFold_spec xs
  obtain ⟨hn2, hs2⟩ := minFold_spec ys
  cases h1 : minFold xs with
  | none =>
      have hxs : xs = [] := hn1.1 h1
      have hys : ys = [] := (hxs ▸ hp).symm.eq_nil
      exact (hn2.2 hys).symm
  | some v =>
      cases h2 : minFold ys with
      | none =>
          have hys : ys = [] := hn2.1 h2
          have hxs : xs = [] := (hys ▸ hp).eq_nil
          rw [hn1.2 hxs] at h1
          exact absurd h1 (by simp)
      | some w =>
          obtain ⟨hvmem, hvle⟩ := hs1 v h1
          obtain ⟨hwmem, hwle⟩ := hs2 w h2
          have hvw : v ≤ w := hvle w (hp.symm.subset hwmem)
          have hwv : w ≤ v := hwle v (hp.subset hvmem)
          rw [le_antisymm hvw hwv]

theorem maxFold_perm (xs ys : List ℚ) (hp : xs.Perm ys) : maxFold xs = maxFold ys := by
  obtain ⟨hn1, hs1⟩ := maxFold_spec xs
  obtain ⟨hn2, hs2⟩ := maxFold_spec ys
  cases h1 : maxFold xs with
  | none =>
      have hxs : xs = [] := hn1.1 h1
      have hys : ys = [] := (hxs ▸ hp).symm.eq_nil
      exact (hn2.2 hys).symm
  | some v =>
      cases h2 : maxFold ys with
      | none =>
          have hys : ys = [] := hn2.1 h2
          have hxs : xs = [] := (hys ▸ hp).eq_nil
          rw [hn1.2 hxs] at h1
          exact absurd h1 (by simp)
      | some w =>
          obtain ⟨hvmem, hvle⟩ := hs1 v h1
          obtain ⟨hwmem, hwle⟩ := hs2 w h2
          have hvw : w ≤ v := hvle w (hp.symm.subset hwmem)
          have hwv : v ≤ w := hwle v (hp.subset hvmem)
          rw [le_antisymm hwv hvw]

/-! The decision procedure only reads the observable statistics. -/

theorem computeTypeValue_congr (P : Params) (gmm : (ℚ → ℕ) → Bool) (s1 s2 : State)
    (hov : s1.m_Override = s2.m_Override)
    (hc : s1.m_Count = s2.m_Count)
    (hnc : s1.numericCount = s2.numericCount)
    (hic : s1.integerCount = s2.integerCount)
    (hnnv : s1.m_NonNumericValues.length = s2.m_NonNumericValues.length)
    (hdv : s1.m_DistinctValues.length = s2.m_DistinctValues.length)
    (hovf : s1.m_EmpiricalDistributionOverflowed = s2.m_EmpiricalDistributionOverflowed)
    (hcnt : distinctValueCount s1 = distinctValueCount s2)
    (hdist : s1.m_EmpiricalDistributionOverflowed = false → distFun s1 = distFun s2) :
    computeTypeValue P gmm s1 = computeTypeValue P gmm s2 := by
  rw [computeTypeValue, computeTypeValue, hov]
  cases s2.m_Override with
  | some u => rfl
  | none =>
      have hprop : m_NumericProportion s1 = m_NumericProportion s2 := by
        rw [m_NumericProportion, m_NumericProportion, hc, hnc]
      have hiprop : m_IntegerProportion s1 = m_IntegerProportion s2 := by
        rw [m_IntegerProportion, m_IntegerProportion, hc, hic]
      have hnum : isNumeric P s1 = isNumeric P s2 := by
        rw [isNumeric, isNumeric, hprop, hnnv]
      have hint : isInteger P s1 = isInteger P s2 := by
        rw [isInteger, isInteger, hiprop]
      have hcat : categoricalType s1 = categoricalType s2 := by
        rw [categoricalType, categoricalType, hdv]
      have hintty : integerType s1 = integerType s2 := by
        rw [integerType, integerType, hcnt]
      rw [hnum, hint, hcat, hintty]
      by_cases hov2 : s2.m_EmpiricalDistributionOverflowed = false
      · have hfun : distFun s1 = distFun s2 := hdist (hovf.trans hov2)
        rw [GMMGoodFit, GMMGoodFit, hfun, hovf, hcnt]
        simp only [realType]
      · have hov2' : s2.m_EmpiricalDistributionOverflowed = true := by
          rwa [Bool.not_eq_false] at hov2
        rw [hovf, hov2']
        simp [realType]

/-! Sample length corollaries and decision branch lemmas. -/

theorem replay_distinctValues_length (P : Params) (parse : String → ParseResult)
    (o : Option EUserDataType) (l : List String) :
    (replay P parse o l).m_DistinctValues.length = min 3 l.toFinset.card := by
  rw [replay_m_DistinctValues]
  exact (sampleFold_inv l).2.2.1

theorem replay_nonNumericValues_length (P : Params) (parse : String → ParseResult)
    (o : Option EUserDataType) (l : List String) :
    (replay P parse o l).m_NonNumericValues.length =
      min 3 (nonNumerics parse l).toFinset.card := by
  rw [replay_m_NonNumericValues]
  exact (sampleFold_inv (nonNumerics parse l)).2.2.1

theorem computeTypeValue_not_numeric (P : Params) (gmm : (ℚ → ℕ) → Bool) (s : State)
    (hov : s.m_Override = none) (hnum : isNumeric P s = false) :
    computeTypeValue P gmm s = categoricalType s := by
  rw [computeTypeValue, hov]
  simp [hnum]

theorem computeTypeValue_integer_branch (P : Params) (gmm : (ℚ → ℕ) → Bool) (s : State)
    (hov : s.m_Override = none) (hnum : isNumeric P s = true)
    (hint : isInteger P s = true) :
    computeTypeValue P gmm s = integerType s := by
  rw [computeTypeValue, hov]
  simp [hnum, hint]

theorem computeTypeValue_real_branch (P : Params) (gmm : (ℚ → ℕ) → Bool) (s : State)
    (hov : s.m_Override = none) (hnum : isNumeric P s = true)
    (hint : isInteger P s = false)
    (hre : s.m_EmpiricalDistributionOverflowed = true ∨
           GMMGoodFit gmm s = true ∨ 2 < distinctValueCount s) :
    computeTypeValue P gmm s = EDataType.real := by
  have hC : (decide (s.m_EmpiricalDistributionOverflowed = false) &&
      decide (GMMGoodFit gmm s = false) && decide (distinctValueCount s ≤ 2)) = false := by
    rcases hre with h | h | h
    · simp [h]
    · simp [h]
    · simp [Nat.not_le.2 h]
  rw [computeTypeValue, hov]
  simp only [hnum, hint, hC]
  simp [realType]

theorem length_filterMap_of_isSome {α β : Type} (f : α → Option β) (l : List α)
    (h : ∀ x ∈ l, (f x).isSome = true) : (l.filterMap f).length = l.length := by
  induction l with
  | nil => rfl
  | cons x t ih =>
      have hx := h x (List.mem_cons_self x t)
      cases hfx : f x with
      | none => rw [hfx] at hx; simp at hx
      | some b =>
          rw [List.filterMap_cons, hfx, List.length_cons,
            ih (fun y hy => h y (List.mem_cons_of_mem x hy)), List.length_cons]

/-! The claims. -/

/-- C1 (amended): feeding any permutation of a multiset of example strings to add
and then calling computeType yields the same type, and the aggregate statistics
are order independent: count, numeric and integer proportions, minimum and
maximum, the overflow flag, the distribution size, the distinct value count, and,
while the distribution has not overflowed, the empirical distribution itself.
Once overflowed the exact map retains whichever distinct keys arrived first, so
the full distribution is order dependent; see the counterexample. -/
theorem c1_order_independence (P : Params) (gmm : (ℚ → ℕ) → Bool)
    (parse : String → ParseResult) (o : Option EUserDataType)
    (l1 l2 : List String) (hp : l1.Perm l2) :
    computeTypeValue P gmm (replay P parse o l1) =
      computeTypeValue P gmm (replay P parse o l2) ∧
    (replay P parse o l1).m_Count = (replay P parse o l2).m_Count ∧
    m_NumericProportion (replay P parse o l1) = m_NumericProportion (replay P parse o l2) ∧
    m_IntegerProportion (replay P parse o l1) = m_IntegerProportion (replay P parse o l2) ∧
    (replay P parse o l1).m_Smallest = (replay P parse o l2).m_Smallest ∧
    (replay P parse o l1).m_Largest = (replay P parse o l2).m_Largest ∧
    (replay P parse o l1).m_EmpiricalDistributionOverflowed =
      (replay P parse o l2).m_EmpiricalDistributionOverflowed ∧
    (replay P parse o l1).m_EmpiricalDistribution.length =
      (replay P parse o l2).m_EmpiricalDistribution.length ∧
    distinctValueCount (replay P parse o l1) = distinctValueCount (replay P parse o l2) ∧
    ((replay P parse o l1).m_EmpiricalDistributionOverflowed = false →
      ∀ w, lookupCount (replay P parse o l1).m_EmpiricalDistribution w =
        lookupCount (replay P parse o l2).m_EmpiricalDistribution w) := by
  have hord : (ordinals parse l1).Perm (ordinals parse l2) := hp.filterMap _
  have hD : distinctOrds parse l1 = distinctOrds parse l2 :=
    List.toFinset_eq_of_perm _ _ hord
  have hc : (replay P parse o l1).m_Count = (replay P parse o l2).m_Count := by
    rw [replay_m_Count, replay_m_Count, hp.length_eq]
  have hnc : (replay P parse o l1).numericCount = (replay P parse o l2).numericCount := by
    rw [replay_numericCount, replay_numericCount, hord.length_eq]
  have hic : (replay P parse o l1).integerCount = (replay P parse o l2).integerCount := by
    rw [replay_integerCount, replay_integerCount, integerCountOf, integerCountOf,
      hp.countP_eq]
  have hovf : (replay P parse o l1).m_EmpiricalDistributionOverflowed =
      (replay P parse o l2).m_EmpiricalDistributionOverflowed := by
    rw [(replay_DistInv P parse o l1).2.1, (replay_DistInv P parse o l2).2.1, hD]
  have hlen : (replay P parse o l1).m_EmpiricalDistribution.length =
      (replay P parse o l2).m_EmpiricalDistribution.length := by
    rw [replay_dist_length, replay_dist_length, hD]
  have hdvc : distinctValueCount (replay P parse o l1) =
      distinctValueCount (replay P parse o l2) := by
    rw [replay_distinctValueCount, replay_distinctValueCount, hD]
  have hsm : (replay P parse o l1).m_Smallest = (replay P parse o l2).m_Smallest := by
    rw [replay_m_Smallest, replay_m_Smallest]
    exact minFold_perm _ _ hord
  have hlg : (replay P parse o l1).m_Largest = (replay P parse o l2).m_Largest := by
    rw [replay_m_Largest, replay_m_Largest]
    exact maxFold_perm _ _ hord
  have hdvl : (replay P parse o l1).m_DistinctValues.length =
      (replay P parse o l2).m_DistinctValues.length := by
    rw [replay_distinctValues_length, replay_distinctValues_length,
      List.toFinset_eq_of_perm _ _ hp]
  have hnnl : (replay P parse o l1).m_NonNumericValues.length =
      (replay P parse o l2).m_NonNumericValues.length := by
    have hnnperm : (nonNumerics parse l1).Perm (nonNumerics parse l2) := hp.filter _
    rw [replay_nonNumericValues_length, replay_nonNumericValues_length,
      List.toFinset_eq_of_perm _ _ hnnperm]
  have hcnts : (replay P parse o l1).m_EmpiricalDistributionOverflowed = false →
      ∀ w, lookupCount (replay P parse o l1).m_EmpiricalDistribution w =
        lookupCount (replay P parse o l2).m_EmpiricalDistribution w := by
    intro hov w
    have hov2 : (replay P parse o l2).m_EmpiricalDistributionOverflowed = false :=
      hovf.symm.trans hov
    rw [replay_lookupCount P parse o l1 hov w, replay_lookupCount P parse o l2 hov2 w]
    exact hord.count_eq w
  have hprop : m_NumericProportion (replay P parse o l1) =
      m_NumericProportion (replay P parse o l2) := by
    rw [m_NumericProportion, m_NumericProportion, hc, hnc]
  have hiprop : m_IntegerProportion (replay P parse o l1) =
      m_IntegerProportion (replay P parse o l2) := by
    rw [m_IntegerProportion, m_IntegerProportion, hc, hic]
  refine ⟨?_, hc, hprop, hiprop, hsm, hlg, hovf, hlen, hdvc, hcnts⟩
  apply computeTypeValue_congr P gmm _ _ ?_ hc hnc hic hnnl hdvl hovf hdvc ?_
  · rw [replay_m_Override, replay_m_Override]
  · intro hov
    funext w
    rw [distFun, distFun]
    exact hcnts hov w

/-- C1 counterexample: the claim as frozen asserts the empirical distribution is
order independent for every permutation; with a distribution cap of one, the
streams 0 then 1 and 1 then 0 are permutations of each other yet record
different counts for the value 0 in the overflowed exact map. -/
theorem c1_counterexample :
    (["0", "1"] : List String).Perm ["1", "0"] ∧
    lookupCount (replay Pone parseFixture none ["0", "1"]).m_EmpiricalDistribution 0 ≠
      lookupCount (replay Pone parseFixture none ["1", "0"]).m_EmpiricalDistribution 0 := by
  exact ⟨List.Perm.swap "1" "0" [], by decide⟩

/-- C1 witness: the order independence theorem applied to the concrete permuted
pair 0,1 and 1,0 under the fixture parser and thresholds. -/
theorem c1_witness :
    (["0", "1"] : List String).Perm ["1", "0"] ∧
    computeTypeValue Pc gmmTrue (replay Pc parseFixture none ["0", "1"]) =
      computeTypeValue Pc gmmTrue (replay Pc parseFixture none ["1", "0"]) :=
  ⟨List.Perm.swap "1" "0" [],
   (c1_order_independence Pc gmmTrue parseFixture none ["0", "1"] ["1", "0"]
     (List.Perm.swap "1" "0" [])).1⟩

/-- C2: constructed with an override, computeType returns the type the override
maps to for every example sequence, and stores it in m_Type; no accumulated
statistic influences the result. -/
theorem c2_override_dominance (P : Params) (gmm : (ℚ → ℕ) → Bool)
    (parse : String → ParseResult) (u : EUserDataType) (l : List String) :
    computeTypeValue P gmm (replay P parse (some u) l) = u.toDataType ∧
    (computeType P gmm (replay P parse (some u) l)).m_Type = some u.toDataType := by
  have h1 : computeTypeValue P gmm (replay P parse (some u) l) = u.toDataType := by
    rw [computeTypeValue, replay_m_Override]
  exact ⟨h1, by rw [computeType, h1]⟩

/-- C3: after replaying any stream the empirical distribution holds at most the
cap many entries; the overflow flag is set exactly when the distinct ordinal
count passed the cap, equivalently one more add sets it exactly when it would
insert a new distinct key into a full distribution; and once set, a further add
never clears it. -/
theorem c3_bounded_distribution (P : Params) (parse : String → ParseResult)
    (o : Option EUserDataType) (l : List String) (x : String) :
    (replay P parse o l).m_EmpiricalDistribution.length ≤
      P.MAXIMUM_EMPIRICAL_DISTRIBUTION_SIZE ∧
    ((replay P parse o l).m_EmpiricalDistributionOverflowed = true ↔
      P.MAXIMUM_EMPIRICAL_DISTRIBUTION_SIZE < (distinctOrds parse l).card) ∧
    ((add P parse (replay P parse o l) x).m_EmpiricalDistributionOverflowed = true ↔
      ((replay P parse o l).m_EmpiricalDistributionOverflowed = true ∨
       ∃ v, (parse x).ordinal = some v ∧
         v ∉ keys (replay P parse o l).m_EmpiricalDistribution ∧
         (replay P parse o l).m_EmpiricalDistribution.length =
           P.MAXIMUM_EMPIRICAL_DISTRIBUTION_SIZE)) ∧
    ((replay P parse o l).m_EmpiricalDistributionOverflowed = true →
      (add P parse (replay P parse o l) x).m_EmpiricalDistributionOverflowed = true) := by
  refine ⟨?_, replay_overflowed_iff P parse o l, replay_add_overflow_iff P parse o l x,
    add_overflow_mono P parse _ x⟩
  rw [replay_dist_length]
  exact min_le_left _ _

/-- C3 witness: with a cap of one, replaying 0 then 1 keeps the distribution at
one entry and sets the overflow flag, and a further add leaves it set. -/
theorem c3_witness :
    (replay Pone parseFixture none ["0", "1"]).m_EmpiricalDistribution.length ≤
      Pone.MAXIMUM_EMPIRICAL_DISTRIBUTION_SIZE ∧
    (replay Pone parseFixture none ["0", "1"]).m_EmpiricalDistributionOverflowed = true ∧
    (add Pone parseFixture (replay Pone parseFixture none ["0", "1"])
      "2").m_EmpiricalDistributionOverflowed = true := by
  have h := c3_bounded_distribution Pone parseFixture none ["0", "1"] "2"
  have hov : (replay Pone parseFixture none ["0", "1"]).m_EmpiricalDistributionOverflowed =
      true := h.2.1.2 (by decide)
  exact ⟨h.1, hov, h.2.2.2 hov⟩

/-- C4: a stream containing only the integer strings 0 and 1, each at least once,
in any proportion and order, meets the integer proportion threshold but has
exactly two distinct numeric values, so the integer candidate is reclassified and
computeType returns binary categorical, not integer. -/
theorem c4_zero_one_binary (P : Params) (gmm : (ℚ → ℕ) → Bool)
    (parse : String → ParseResult) (l : List String)
    (h0 : parse "0" = ParseResult.integer 0) (h1 : parse "1" = ParseResult.integer 1)
    (hmem : ∀ x ∈ l, x = "0" ∨ x = "1") (hz : "0" ∈ l) (ho : "1" ∈ l)
    (hS : P.Sensible) :
    isInteger P (replay P parse none l) = true ∧
    distinctValueCount (replay P parse none l) = 2 ∧
    computeTypeValue P gmm (replay P parse none l) = EDataType.binary ∧
    computeTypeValue P gmm (replay P parse none l) ≠ EDataType.integer := by
  obtain ⟨hm0, hms, hs1, hi0, hi1⟩ := hS
  have hne : l ≠ [] := fun h => by rw [h] at hz; exact (List.not_mem_nil _) hz
  have hlen0 : ¬l.length = 0 := fun h => hne (List.length_eq_zero.1 h)
  have hpx : ∀ x ∈ l, parse x = ParseResult.integer 0 ∨ parse x = ParseResult.integer 1 := by
    intro x hx
    rcases hmem x hx with h | h
    · exact Or.inl (h ▸ h0)
    · exact Or.inr (h ▸ h1)
  have hsome : ∀ x ∈ l, ((parse x).ordinal).isSome = true := by
    intro x hx
    rcases hpx x hx with h | h <;> rw [h] <;> rfl
  have hnc : (replay P parse none l).numericCount = l.length := by
    rw [replay_numericCount, ordinals]
    exact length_filterMap_of_isSome _ l hsome
  have hprop1 : m_NumericProportion (replay P parse none l) = 1 := by
    rw [m_NumericProportion, replay_m_Count, hnc, if_neg hlen0, Rat.divInt_eq_div]
    exact div_self (by exact_mod_cast hlen0)
  have hic : (replay P parse none l).integerCount = l.length := by
    rw [replay_integerCount, integerCountOf]
    apply List.countP_eq_length.2
    intro x hx
    rcases hpx x hx with h | h <;> rw [h] <;> rfl
  have hiprop1 : m_IntegerProportion (replay P parse none l) = 1 := by
    rw [m_IntegerProportion, replay_m_Count, hic, if_neg hlen0, Rat.divInt_eq_div]
    exact div_self (by exact_mod_cast hlen0)
  have hisnum : isNumeric P (replay P parse none l) = true := by
    rw [isNumeric, hprop1]
    rw [decide_eq_true hs1, Bool.true_or]
  have hisint : isInteger P (replay P parse none l) = true := by
    rw [isInteger, hiprop1]
    exact decide_eq_true hi1
  have hD : distinctOrds parse l = {0, 1} := by
    apply Finset.ext
    intro q
    simp only [Finset.mem_insert, Finset.mem_singleton]
    constructor
    · intro hq
      rw [distinctOrds, List.mem_toFinset, ordinals, List.mem_filterMap] at hq
      obtain ⟨x, hx, hqx⟩ := hq
      rcases hpx x hx with h | h
      · left
        rw [h] at hqx
        simpa [ParseResult.ordinal] using hqx.symm
      · right
        rw [h] at hqx
        simpa [ParseResult.ordinal] using hqx.symm
    · intro hq
      rw [distinctOrds, List.mem_toFinset, ordinals, List.mem_filterMap]
      rcases hq with hq | hq
      · exact ⟨"0", hz, by rw [h0]; simp [ParseResult.ordinal, hq]⟩
      · exact ⟨"1", ho, by rw [h1]; simp [ParseResult.ordinal, hq]⟩
  have hdvc : distinctValueCount (replay P parse none l) = 2 := by
    rw [replay_distinctValueCount, hD]
    decide
  have htype : computeTypeValue P gmm (replay P parse none l) = EDataType.binary := by
    rw [computeTypeValue_integer_branch P gmm _ (replay_m_Override P parse none l)
      hisnum hisint, integerType, hdvc]
    simp
  refine ⟨hisint, hdvc, htype, ?_⟩
  rw [htype]
  decide

/-- C4 witness: the theorem applied to the concrete stream 0,1,1,0,1 with the
fixture parser and sensible thresholds. -/
theorem c4_witness :
    (∀ x ∈ (["0", "1", "1", "0", "1"] : List String), x = "0" ∨ x = "1") ∧
    Pc.Sensible ∧
    computeTypeValue Pc gmmTrue (replay Pc parseFixture none ["0", "1", "1", "0", "1"]) =
      EDataType.binary := by
  refine ⟨by decide, ?_, ?_⟩
  · refine ⟨by decide, by decide, by decide, by decide, by decide⟩
  · exact (c4_zero_one_binary Pc gmmTrue parseFixture ["0", "1", "1", "0", "1"]
      (by decide) (by decide) (by decide) (by decide) (by decide)
      ⟨by decide, by decide, by decide, by decide, by decide⟩).2.2.1

/-- C5: with no override and zero add calls, computeType returns the categorical
type, the documented zero evidence default, for any thresholds in their intended
range, and stores it; the decision is a total function, so no error can arise. -/
theorem c5_empty_stream (P : Params) (gmm : (ℚ → ℕ) → Bool) (hS : P.Sensible) :
    computeTypeValue P gmm (init none) = EDataType.categorical ∧
    (computeType P gmm (init none)).m_Type = some EDataType.categorical := by
  obtain ⟨hm0, hms, hs1, hi0, hi1⟩ := hS
  have hprop : m_NumericProportion (init none) = 0 := by
    rw [m_NumericProportion]
    simp [init]
  have hnum : isNumeric P (init none) = false := by
    rw [isNumeric, hprop]
    have hst : ¬P.NUMERIC_PROPORTION_FOR_METRIC_STRICT ≤ (0 : ℚ) := by linarith
    have hmm : ¬P.NUMERIC_PROPORTION_FOR_METRIC_WITH_SUSPECTED_MISSING_VALUES ≤ (0 : ℚ) := by
      linarith
    simp [hst, hmm]
  have h1 : computeTypeValue P gmm (init none) = EDataType.categorical := by
    rw [computeTypeValue_not_numeric P gmm _ rfl hnum, categoricalType]
    simp [init]
  exact ⟨h1, by rw [computeType, h1]⟩

/-- C5 witness: the empty stream theorem applied at the fixture thresholds. -/
theorem c5_witness :
    Pc.Sensible ∧ computeTypeValue Pc gmmTrue (init none) = EDataType.categorical := by
  have hS : Pc.Sensible := ⟨by decide, by decide, by decide, by decide, by decide⟩
  exact ⟨hS, (c5_empty_stream Pc gmmTrue hS).1⟩

/-- C6: for a stream in which no example parses as numeric, computeType returns
binary categorical when exactly two distinct literal values were observed and
categorical otherwise, whether one distinct value, or three or more. -/
theorem c6_binary_categorical_detection (P : Params) (gmm : (ℚ → ℕ) → Bool)
    (parse : String → ParseResult) (l : List String) (hS : P.Sensible)
    (hnn : ∀ x ∈ l, parse x = ParseResult.notNumeric) :
    computeTypeValue P gmm (replay P parse none l) =
      (if l.toFinset.card = 2 then EDataType.binary else EDataType.categorical) := by
  obtain ⟨hm0, hms, hs1, hi0, hi1⟩ := hS
  have hord : ordinals parse l = [] := by
    rw [ordinals, List.filterMap_eq_nil_iff]
    intro x hx
    rw [hnn x hx]
    rfl
  have hnc : (replay P parse none l).numericCount = 0 := by
    rw [replay_numericCount, hord]
    rfl
  have hprop : m_NumericProportion (replay P parse none l) = 0 := by
    rw [m_NumericProportion, hnc]
    by_cases hc : (replay P parse none l).m_Count = 0
    · rw [if_pos hc]
    · rw [if_neg hc]
      simp [Rat.zero_divInt]
  have hnum : isNumeric P (replay P parse none l) = false := by
    rw [isNumeric, hprop]
    have hst : ¬P.NUMERIC_PROPORTION_FOR_METRIC_STRICT ≤ (0 : ℚ) := by linarith
    have hmm : ¬P.NUMERIC_PROPORTION_FOR_METRIC_WITH_SUSPECTED_MISSING_VALUES ≤ (0 : ℚ) := by
      linarith
    simp [hst, hmm]
  rw [computeTypeValue_not_numeric P gmm _ (replay_m_Override P parse none l) hnum,
    categoricalType, replay_distinctValues_length]
  by_cases hc : l.toFinset.card = 2
  · rw [if_pos hc, hc, if_pos (by omega : min 3 2 = 2)]
  · rw [if_neg hc, if_neg (by omega : ¬min 3 l.toFinset.card = 2)]

/-- C6 witness: two distinct non-numeric literals give binary categorical, three
give categorical, at the fixture parser and thresholds. -/
theorem c6_witness :
    (∀ x ∈ (["a", "b", "a"] : List String), parseFixture x = ParseResult.notNumeric) ∧
    computeTypeValue Pc gmmTrue (replay Pc parseFixture none ["a", "b", "a"]) =
      EDataType.binary ∧
    computeTypeValue Pc gmmTrue (replay Pc parseFixture none ["a", "b", "c"]) =
      EDataType.categorical := by
  have hS : Pc.Sensible := ⟨by decide, by decide, by decide, by decide, by decide⟩
  refine ⟨by decide, ?_, ?_⟩
  · rw [c6_binary_categorical_detection Pc gmmTrue parseFixture ["a", "b", "a"] hS
      (by decide)]
    decide
  · rw [c6_binary_categorical_detection Pc gmmTrue parseFixture ["a", "b", "c"] hS
      (by decide)]
    decide

/-- C7 (amended): a stream that is 85 percent real number strings and 15 percent
one repeated non-numeric sentinel, with the tolerant threshold below 0.85 and the
strict threshold above it, is classified numeric via the missing-value tolerant
threshold, the strict test failing, and computeType returns the real type,
provided the mixture-fit reclassification does not apply: the distribution
overflowed, or the fit is good, or more than two distinct numeric values were
seen.  Without that proviso the claim fails; see the counterexample. -/
theorem c7_metric_with_missing_values (P : Params) (gmm : (ℚ → ℕ) → Bool)
    (parse : String → ParseResult) (l : List String) (na : String) (m : ℕ)
    (hm : 0 < m)
    (hna : parse na = ParseResult.notNumeric)
    (hmem : ∀ x ∈ l, (∃ q, parse x = ParseResult.real q) ∨ x = na)
    (hlen : l.length = 20 * m)
    (hnum : (ordinals parse l).length = 17 * m)
    (hmiss : P.NUMERIC_PROPORTION_FOR_METRIC_WITH_SUSPECTED_MISSING_VALUES < (17 : ℚ) / 20)
    (hstrict : (17 : ℚ) / 20 < P.NUMERIC_PROPORTION_FOR_METRIC_STRICT)
    (hint : 0 < P.INTEGER_PRORORTION_FOR_INTEGER)
    (hfit : (replay P parse none l).m_EmpiricalDistributionOverflowed = true ∨
            GMMGoodFit gmm (replay P parse none l) = true ∨
            2 < distinctValueCount (replay P parse none l)) :
    decide (P.NUMERIC_PROPORTION_FOR_METRIC_STRICT ≤
      m_NumericProportion (replay P parse none l)) = false ∧
    isNumeric P (replay P parse none l) = true ∧
    computeTypeValue P gmm (replay P parse none l) = EDataType.real := by
  have hm' : (m : ℚ) ≠ 0 := by exact_mod_cast hm.ne'
  have hprop : m_NumericProportion (replay P parse none l) = (17 : ℚ) / 20 := by
    rw [m_NumericProportion, replay_m_Count, replay_numericCount, hnum, hlen,
      if_neg (by omega : ¬20 * m = 0), Rat.divInt_eq_div]
    push_cast
    exact mul_div_mul_right 17 20 hm'
  have hnnsub : ∀ x ∈ nonNumerics parse l, x = na := by
    intro x hxm
    rw [nonNumerics, List.mem_filter] at hxm
    obtain ⟨hxl, hxn⟩ := hxm
    rcases hmem x hxl with ⟨q, hq⟩ | h
    · rw [hq] at hxn
      simp [ParseResult.ordinal] at hxn
    · exact h
  have hnnlen : (replay P parse none l).m_NonNumericValues.length ≤ 2 := by
    rw [replay_nonNumericValues_length]
    have hsub : (nonNumerics parse l).toFinset ⊆ {na} := by
      intro a ha
      rw [List.mem_toFinset] at ha
      rw [Finset.mem_singleton]
      exact hnnsub a ha
    have hcard : (nonNumerics parse l).toFinset.card ≤ 1 := by
      calc (nonNumerics parse l).toFinset.card ≤ ({na} : Finset String).card :=
            Finset.card_le_card hsub
        _ = 1 := Finset.card_singleton na
    omega
  have hstrictf : decide (P.NUMERIC_PROPORTION_FOR_METRIC_STRICT ≤
      m_NumericProportion (replay P parse none l)) = false := by
    rw [hprop]
    exact decide_eq_false (not_le.2 hstrict)
  have hisnum : isNumeric P (replay P parse none l) = true := by
    rw [isNumeric, hprop]
    rw [decide_eq_true (le_of_lt hmiss), decide_eq_true hnnlen]
    simp
  have hint0 : (replay P parse none l).integerCount = 0 := by
    rw [replay_integerCount, integerCountOf]
    apply List.countP_eq_zero.2
    intro x hxl
    rcases hmem x hxl with ⟨q, hq⟩ | h
    · rw [hq]
      simp [ParseResult.countsAsInteger]
    · rw [h, hna]
      simp [ParseResult.countsAsInteger]
  have hiprop : m_IntegerProportion (replay P parse none l) = 0 := by
    rw [m_IntegerProportion, replay_m_Count, hint0, hlen,
      if_neg (by omega : ¬20 * m = 0)]
    simp [Rat.zero_divInt]
  have hisint : isInteger P (replay P parse none l) = false := by
    rw [isInteger, hiprop]
    exact decide_eq_false (not_le.2 hint)
  exact ⟨hstrictf, hisnum,
    computeTypeValue_real_branch P gmm _ (replay_m_Override P parse none l)
      hisnum hisint hfit⟩

/-- C7 counterexample: the claim as frozen promises the real type for every
85 / 15 stream; seventeen copies of one real value and three of the sentinel
meet the shape and the threshold side conditions and are classified numeric via
the tolerant threshold, yet with a poor mixture fit the single distinct real
value triggers the reclassification and computeType does not return real. -/
theorem c7_counterexample :
    (streamSeven.length = 20 ∧
     (ordinals parseFixture streamSeven).length = 17 ∧
     (∀ x ∈ streamSeven, (∃ q, parseFixture x = ParseResult.real q) ∨ x = "NA") ∧
     Pc.NUMERIC_PROPORTION_FOR_METRIC_WITH_SUSPECTED_MISSING_VALUES < (17 : ℚ) / 20 ∧
     (17 : ℚ) / 20 < Pc.NUMERIC_PROPORTION_FOR_METRIC_STRICT ∧
     isNumeric Pc (replay Pc parseFixture none streamSeven) = true) ∧
    computeTypeValue Pc gmmFalse (replay Pc parseFixture none streamSeven) ≠
      EDataType.real := by
  refine ⟨⟨by decide, by decide, ?_, ?_, ?_, by decide⟩, by decide⟩
  · have hall : ∀ y ∈ streamSeven, y = "0.5" ∨ y = "NA" := by decide
    intro x hxm
    rcases hall x hxm with h | h
    · exact Or.inl ⟨Rat.divInt 1 2, by rw [h]; decide⟩
    · exact Or.inr h
  · norm_num [Pc, Rat.divInt_eq_div]
  · norm_num [Pc, Rat.divInt_eq_div]

/-- C7 witness: the amended theorem applied to a concrete 85 / 15 stream whose
real values span three distinct numbers, so the reclassification proviso holds
even under a poor mixture fit. -/
theorem c7_witness :
    (parseFixture "NA" = ParseResult.notNumeric ∧
     streamSevenW.length = 20 * 1 ∧
     (ordinals parseFixture streamSevenW).length = 17 * 1 ∧
     2 < distinctValueCount (replay Pc parseFixture none streamSevenW)) ∧
    computeTypeValue Pc gmmFalse (replay Pc parseFixture none streamSevenW) =
      EDataType.real := by
  have hmem : ∀ x ∈ streamSevenW, (∃ q, parseFixture x = ParseResult.real q) ∨ x = "NA" := by
    have hall : ∀ y ∈ streamSevenW,
        y = "0.5" ∨ y = "1.5" ∨ y = "2.5" ∨ y = "NA" := by decide
    intro x hxm
    rcases hall x hxm with h | h | h | h
    · exact Or.inl ⟨Rat.divInt 1 2, by rw [h]; decide⟩
    · exact Or.inl ⟨Rat.divInt 3 2, by rw [h]; decide⟩
    · exact Or.inl ⟨Rat.divInt 5 2, by rw [h]; decide⟩
    · exact Or.inr h
  refine ⟨⟨by decide, by decide, by decide, by decide⟩, ?_⟩
  exact (c7_metric_with_missing_values Pc gmmFalse parseFixture streamSevenW "NA" 1
    (by decide) (by decide) hmem (by decide) (by decide)
    (by norm_num [Pc, Rat.divInt_eq_div]) (by norm_num [Pc, Rat.divInt_eq_div])
    (by norm_num [Pc, Rat.divInt_eq_div])
    (Or.inr (Or.inr (by decide)))).2.2

/-- C8: add is a total function and a non-numeric example updates only the
non-numeric bookkeeping: the count grows by one, the numeric and integer
counters, the order statistics, the empirical distribution, the overflow flag
and the estimator are untouched, the literal is recorded in the bounded
non-numeric sample while it has room, and the numeric proportion never rises
and strictly falls when numeric evidence exists. -/
theorem c8_nonnumeric_add (P : Params) (parse : String → ParseResult)
    (o : Option EUserDataType) (l : List String) (x : String)
    (hx : parse x = ParseResult.notNumeric) :
    (add P parse (replay P parse o l) x).m_Count = (replay P parse o l).m_Count + 1 ∧
    (add P parse (replay P parse o l) x).numericCount =
      (replay P parse o l).numericCount ∧
    (add P parse (replay P parse o l) x).integerCount =
      (replay P parse o l).integerCount ∧
    (add P parse (replay P parse o l) x).m_Smallest = (replay P parse o l).m_Smallest ∧
    (add P parse (replay P parse o l) x).m_Largest = (replay P parse o l).m_Largest ∧
    (add P parse (replay P parse o l) x).m_EmpiricalDistribution =
      (replay P parse o l).m_EmpiricalDistribution ∧
    (add P parse (replay P parse o l) x).m_EmpiricalDistributionOverflowed =
      (replay P parse o l).m_EmpiricalDistributionOverflowed ∧
    (add P parse (replay P parse o l) x).sketch = (replay P parse o l).sketch ∧
    (add P parse (replay P parse o l) x).m_NonNumericValues =
      recordDistinct (replay P parse o l).m_NonNumericValues x 3 ∧
    (x ∈ (add P parse (replay P parse o l) x).m_NonNumericValues ∨
      3 ≤ (replay P parse o l).m_NonNumericValues.length) ∧
    m_NumericProportion (add P parse (replay P parse o l) x) ≤
      m_NumericProportion (replay P parse o l) ∧
    (0 < (replay P parse o l).numericCount →
      m_NumericProportion (add P parse (replay P parse o l) x) <
        m_NumericProportion (replay P parse o l)) := by
  have hxo : (parse x).ordinal = none := by rw [hx]; rfl
  have e1 := add_m_Count P parse (replay P parse o l) x
  have e2 : (add P parse (replay P parse o l) x).numericCount =
      (replay P parse o l).numericCount := by
    rw [add_numericCount, hxo]
    simp
  have e3 : (add P parse (replay P parse o l) x).integerCount =
      (replay P parse o l).integerCount := by
    rw [add_integerCount, hx]
    simp [ParseResult.countsAsInteger]
  have e4 : (add P parse (replay P parse o l) x).m_Smallest =
      (replay P parse o l).m_Smallest := by
    rw [add_m_Smallest, hxo]
  have e5 : (add P parse (replay P parse o l) x).m_Largest =
      (replay P parse o l).m_Largest := by
    rw [add_m_Largest, hxo]
  have e6 : (add P parse (replay P parse o l) x).m_EmpiricalDistribution =
      (replay P parse o l).m_EmpiricalDistribution := by
    rw [add_m_EmpiricalDistribution, hxo]
  have e7 : (add P parse (replay P parse o l) x).m_EmpiricalDistributionOverflowed =
      (replay P parse o l).m_EmpiricalDistributionOverflowed := by
    rw [add_m_EmpiricalDistributionOverflowed, hxo]
  have e8 : (add P parse (replay P parse o l) x).sketch = (replay P parse o l).sketch := by
    rw [add_sketch, hxo]
  have e9 : (add P parse (replay P parse o l) x).m_NonNumericValues =
      recordDistinct (replay P parse o l).m_NonNumericValues x 3 := by
    rw [add_m_NonNumericValues, hxo]
    rfl
  have e10 : x ∈ (add P parse (replay P parse o l) x).m_NonNumericValues ∨
      3 ≤ (replay P parse o l).m_NonNumericValues.length := by
    rw [e9, recordDistinct]
    by_cases hmem : x ∈ (replay P parse o l).m_NonNumericValues
    · left
      split
      · exact List.mem_append_left _ hmem
      · exact hmem
    · by_cases hroom : (replay P parse o l).m_NonNumericValues.length < 3
      · left
        rw [if_pos ⟨hroom, hmem⟩]
        exact List.mem_append_right _ (List.mem_singleton.2 rfl)
      · right
        omega
  have hle : (replay P parse o l).numericCount ≤ (replay P parse o l).m_Count := by
    rw [replay_numericCount, replay_m_Count]
    exact List.length_filterMap_le _ _
  have e11 : m_NumericProportion (add P parse (replay P parse o l) x) ≤
      m_NumericProportion (replay P parse o l) ∧
      (0 < (replay P parse o l).numericCount →
        m_NumericProportion (add P parse (replay P parse o l) x) <
          m_NumericProportion (replay P parse o l)) := by
    rw [m_NumericProportion, m_NumericProportion, e1, e2]
    by_cases hc0 : (replay P parse o l).m_Count = 0
    · have hnc0 : (replay P parse o l).numericCount = 0 := by omega
      rw [if_pos hc0, if_neg (by omega : ¬(replay P parse o l).m_Count + 1 = 0), hnc0,
        hc0]
      constructor
      · simp [Rat.zero_divInt]
      · intro h
        omega
    · rw [if_neg hc0, if_neg (by omega : ¬(replay P parse o l).m_Count + 1 = 0),
        Rat.divInt_eq_div, Rat.divInt_eq_div]
      push_cast
      have hcpos : (0 : ℚ) < ((replay P parse o l).m_Count : ℚ) := by
        exact_mod_cast Nat.pos_of_ne_zero hc0
      constructor
      · apply div_le_div_of_nonneg_left (by positivity) hcpos (by linarith)
      · intro h
        have hnpos : (0 : ℚ) < ((replay P parse o l).numericCount : ℚ) := by
          exact_mod_cast h
        apply div_lt_div_of_pos_left hnpos hcpos (by linarith)
  exact ⟨e1, e2, e3, e4, e5, e6, e7, e8, e9, e10, e11.1, e11.2⟩

/-- C8 witness: adding the sentinel to a classifier that has seen one numeric
example leaves the numeric evidence untouched, records the sentinel, and
strictly lowers the numeric proportion. -/
theorem c8_witness :
    parseFixture "NA" = ParseResult.notNumeric ∧
    (add Pc parseFixture (replay Pc parseFixture none ["0"]) "NA").m_Count =
      (replay Pc parseFixture none ["0"]).m_Count + 1 ∧
    m_NumericProportion (add Pc parseFixture (replay Pc parseFixture none ["0"]) "NA") <
      m_NumericProportion (replay Pc parseFixture none ["0"]) := by
  have h := c8_nonnumeric_add Pc parseFixture none ["0"] "NA" (by decide)
  exact ⟨by decide, h.1, h.2.2.2.2.2.2.2.2.2.2.2 (by decide)⟩

/-- C9: after replaying any stream the classifier state satisfies the documented
invariants: the count is non-negative, both running proportions lie between zero
and one, and the bounded distinct sample holds at most three entries.  Replaying
an arbitrary stream covers the state after every individual add call. -/
theorem c9_state_invariants (P : Params) (parse : String → ParseResult)
    (o : Option EUserDataType) (l : List String) :
    0 ≤ (replay P parse o l).m_Count ∧
    0 ≤ m_NumericProportion (replay P parse o l) ∧
    m_NumericProportion (replay P parse o l) ≤ 1 ∧
    0 ≤ m_IntegerProportion (replay P parse o l) ∧
    m_IntegerProportion (replay P parse o l) ≤ 1 ∧
    (replay P parse o l).m_DistinctValues.length ≤ 3 := by
  have hnc : (replay P parse o l).numericCount ≤ (replay P parse o l).m_Count := by
    rw [replay_numericCount, replay_m_Count]
    exact List.length_filterMap_le _ _
  have hic : (replay P parse o l).integerCount ≤ (replay P parse o l).m_Count := by
    rw [replay_integerCount, replay_m_Count, integerCountOf]
    exact List.countP_le_length _
  have hb1 : 0 ≤ m_NumericProportion (replay P parse o l) ∧
      m_NumericProportion (replay P parse o l) ≤ 1 := by
    rw [m_NumericProportion]
    by_cases hc : (replay P parse o l).m_Count = 0
    · rw [if_pos hc]
      norm_num
    · rw [if_neg hc, Rat.divInt_eq_div]
      have hcpos : (0 : ℚ) < ((replay P parse o l).m_Count : ℚ) := by
        exact_mod_cast Nat.pos_of_ne_zero hc
      constructor
      · positivity
      · rw [div_le_one (by push_cast at hcpos ⊢; exact hcpos)]
        exact_mod_cast hnc
  have hb2 : 0 ≤ m_IntegerProportion (replay P parse o l) ∧
      m_IntegerProportion (replay P parse o l) ≤ 1 := by
    rw [m_IntegerProportion]
    by_cases hc : (replay P parse o l).m_Count = 0
    · rw [if_pos hc]
      norm_num
    · rw [if_neg hc, Rat.divInt_eq_div]
      have hcpos : (0 : ℚ) < ((replay P parse o l).m_Count : ℚ) := by
        exact_mod_cast Nat.pos_of_ne_zero hc
      constructor
      · positivity
      · rw [div_le_one (by push_cast at hcpos ⊢; exact hcpos)]
        exact_mod_cast hic
  refine ⟨Nat.zero_le _, hb1.1, hb1.2, hb2.1, hb2.2, ?_⟩
  rw [replay_distinctValues_length]
  exact min_le_left _ _

/-- C10: computeType writes the freshly computed decision into m_Type and
changes nothing else; in particular two consecutive computeType calls with no
intervening add store the same type. -/
theorem c10_computeType_frame (P : Params) (gmm : (ℚ → ℕ) → Bool) (s : State) :
    (computeType P gmm s).m_Override = s.m_Override ∧
    (computeType P gmm s).m_Count = s.m_Count ∧
    (computeType P gmm s).numericCount = s.numericCount ∧
    (computeType P gmm s).integerCount = s.integerCount ∧
    (computeType P gmm s).m_Smallest = s.m_Smallest ∧
    (computeType P gmm s).m_Largest = s.m_Largest ∧
    (computeType P gmm s).m_DistinctValues = s.m_DistinctValues ∧
    (computeType P gmm s).m_NonNumericValues = s.m_NonNumericValues ∧
    (computeType P gmm s).m_EmpiricalDistributionOverflowed =
      s.m_EmpiricalDistributionOverflowed ∧
    (computeType P gmm s).m_EmpiricalDistribution = s.m_EmpiricalDistribution ∧
    (computeType P gmm s).sketch = s.sketch ∧
    (computeType P gmm s).m_Type = some (computeTypeValue P gmm s) ∧
    (computeType P gmm (computeType P gmm s)).m_Type = (computeType P gmm s).m_Type :=
  ⟨rfl, rfl, rfl, rfl, rfl, rfl, rfl, rfl, rfl, rfl, rfl, rfl, rfl⟩

end CDataSemantics
